import Mathlib

/-!
Shallow embedding of the drugstore repository's consumption-tax core:
`drugstore/domain/models/consumption_taxes.py` and
`drugstore/utils/consumption_tax_manager.py`.

Instants (Python `datetime` values on the JST axis) are modelled as `Nat`:
only their total order is used by the code.  `MIN_CONSUMPTION_TAX_BEGIN`
models `datetime.min` (with JST tzinfo) and `MAX_CONSUMPTION_TAX_END`
models `datetime.max`; any two concrete values with `MIN < MAX` model the
axis faithfully.  Because every `Nat` instant is by construction a point
of the (single) JST axis, Python's `is_jst_datetime` guard is identically
true in this model and is noted where it occurs.  `Decimal` rates are
modelled as `ℚ` (Python `Decimal` equality and order are value equality
and order, as are `ℚ`'s).  `uuid.UUID` identities are modelled as `Nat`;
the fresh ids drawn from `uuid.uuid4()` inside the operations are passed
as explicit parameters.
-/

namespace Drugstore

/-- A point of the shared JST time axis. -/
abbrev Instant := Nat

/-- Models `datetime.min.replace(tzinfo=JST)`. -/
def MIN_CONSUMPTION_TAX_BEGIN : Instant := 0

/-- Models `datetime.max.replace(tzinfo=JST)`. -/
def MAX_CONSUMPTION_TAX_END : Instant := 1000000000

/-- Models `Decimal("0.0")`. -/
def MIN_CONSUMPTION_TAX_RATE : ℚ := 0

/-- Models `Decimal("1.0")`. -/
def MAX_CONSUMPTION_TAX_RATE : ℚ := 1

/-- The `ConsumptionTax` dataclass: id, begin (inclusive), end (exclusive),
rate.  The field `end` is written `«end»` because `end` is a Lean keyword. -/
structure ConsumptionTax where
  id : Nat
  begin : Instant
  «end» : Instant
  rate : ℚ
deriving DecidableEq, Repr

/-- `validate_consumption_tax_rate`: the rate is valid iff
`MIN_CONSUMPTION_TAX_RATE <= rate < MAX_CONSUMPTION_TAX_RATE`. -/
def validate_consumption_tax_rate (rate : ℚ) : Bool :=
  decide (MIN_CONSUMPTION_TAX_RATE ≤ rate ∧ rate < MAX_CONSUMPTION_TAX_RATE)

/-- `ConsumptionTax.contains`: whether `self`'s span wholly contains
`other`'s span, translated branch by branch from the source. -/
def ConsumptionTax.contains (self other : ConsumptionTax) : Bool :=
  if other.begin < self.begin then false
  else if self.«end» < other.«end» then false
  else true

/-- Error message of `ConsumptionTax.__init__` for an out-of-range begin. -/
def beginOutOfRangeMsg : String := "InvalidInterval: begin out of range"

/-- Error message of `ConsumptionTax.__init__` for an out-of-range end. -/
def endOutOfRangeMsg : String := "InvalidInterval: end out of range"

/-- Error message of `ConsumptionTax.__init__` when `end <= begin`. -/
def beginNotBeforeEndMsg : String := "InvalidInterval: begin is not before end"

/-- Error message for a rate outside `[0.0, 1.0)` (`InvalidRate`). -/
def invalidRateMsg : String := "InvalidRate: rate outside the interval 0 to 1"

/-- `ConsumptionTax.__init__`, the validated constructor.  The JST-timezone
check on `begin`/`end` is identically true in this model (all `Instant`s
are points of the JST axis) and is therefore not a branch here; the four
range/order/rate checks follow the source in order. -/
def mkConsumptionTax (id : Nat) (begin «end» : Instant) (rate : ℚ) :
    Except String ConsumptionTax :=
  if begin < MIN_CONSUMPTION_TAX_BEGIN ∨ MAX_CONSUMPTION_TAX_END ≤ begin then
    .error beginOutOfRangeMsg
  else if «end» ≤ MIN_CONSUMPTION_TAX_BEGIN ∨ MAX_CONSUMPTION_TAX_END < «end» then
    .error endOutOfRangeMsg
  else if «end» ≤ begin then
    .error beginNotBeforeEndMsg
  else if ¬ validate_consumption_tax_rate rate then
    .error invalidRateMsg
  else
    .ok ⟨id, begin, «end», rate⟩

/-! ### List-surgery helpers

Python mutates lists in place (`l[i].end = v`, `l.insert(i, x)`,
`del l[i]`); these helpers are the corresponding functional operations. -/

/-- Apply `f` to the element at index `i`; out-of-range indices leave the
list unchanged (every use in the embedding is in range). -/
def modifyAt (l : List α) (i : Nat) (f : α → α) : List α :=
  match l, i with
  | [], _ => []
  | x :: xs, 0 => f x :: xs
  | x :: xs, i + 1 => x :: modifyAt xs i f

/-- `taxes[i].begin = v`. -/
def setBeginAt (l : List ConsumptionTax) (i : Nat) (v : Instant) : List ConsumptionTax :=
  modifyAt l i fun t => ⟨t.id, v, t.«end», t.rate⟩

/-- `taxes[i].end = v`. -/
def setEndAt (l : List ConsumptionTax) (i : Nat) (v : Instant) : List ConsumptionTax :=
  modifyAt l i fun t => ⟨t.id, t.begin, v, t.rate⟩

/-- `taxes[i].rate = v`. -/
def setRateAt (l : List ConsumptionTax) (i : Nat) (v : ℚ) : List ConsumptionTax :=
  modifyAt l i fun t => ⟨t.id, t.begin, t.«end», v⟩

/-- `l.insert(i, a)`: like Python's `list.insert`, an index beyond the
length appends at the tail. -/
def insertAt (l : List α) (i : Nat) (a : α) : List α :=
  match l, i with
  | l, 0 => a :: l
  | [], _ + 1 => [a]
  | x :: xs, i + 1 => x :: insertAt xs i a

/-- `del l[i]`; out-of-range indices leave the list unchanged (every use in
the embedding is in range). -/
def eraseAt (l : List α) (i : Nat) : List α :=
  match l, i with
  | [], _ => []
  | _ :: xs, 0 => xs
  | x :: xs, i + 1 => x :: eraseAt xs i

/-- One insertion step of Python's stable `list.sort(key=attrgetter("begin"))`:
insert `t` into the already sorted suffix, before the first element whose
`begin` is not smaller (so an element inserted from earlier in the input
stays before later elements with an equal key, as Timsort's stability
guarantees). -/
def insert_sorted_by_begin (t : ConsumptionTax) :
    List ConsumptionTax → List ConsumptionTax
  | [] => [t]
  | x :: xs =>
    if x.begin < t.begin then x :: insert_sorted_by_begin t xs
    else t :: x :: xs

/-- Models `consumption_taxes.sort(key=attrgetter("begin"))`: a stable sort
ascending on `begin`. -/
def sort_by_begin : List ConsumptionTax → List ConsumptionTax
  | [] => []
  | t :: ts => insert_sorted_by_begin t (sort_by_begin ts)

/-- Error message of `ensure_consumption_tax_periods_are_continuous` on an
empty list. -/
def ensureEmptyMsg : String := "ValueError: the tax list must hold at least one tax"

/-- The while loop of `ensure_consumption_tax_periods_are_continuous`:
`e` is the running `end`, the remaining list is `taxes[index:]`. -/
def continuous_from (e : Instant) : List ConsumptionTax → Bool
  | [] => true
  | t :: ts => if t.begin ≠ e then false else continuous_from t.«end» ts

/-- `ensure_consumption_tax_periods_are_continuous`: raises on an empty
list, returns `True` for a singleton, otherwise checks
`taxes[index].begin == taxes[index-1].end` pairwise left to right. -/
def ensure_consumption_tax_periods_are_continuous (taxes : List ConsumptionTax) :
    Except String Bool :=
  match taxes with
  | [] => .error ensureEmptyMsg
  | [_] => .ok true
  | t :: rest => .ok (continuous_from t.«end» rest)

/-- The manager's state is exactly its `consumption_taxes` member. -/
abbrev ConsumptionTaxManager := List ConsumptionTax

/-- Error message of the constructor on an empty list (`EmptyInput`). -/
def emptyInputMsg : String := "EmptyInput: the manager takes at least one tax"

/-- Error message of the constructor on a gap or overlap (`Discontinuous`). -/
def discontinuousMsg : String := "Discontinuous: the tax periods have a gap or overlap"

/-- `ConsumptionTaxManager.__init__`: reject an empty list, sort by `begin`,
check continuity, then clamp the first `begin` to
`MIN_CONSUMPTION_TAX_BEGIN` and the last `end` to
`MAX_CONSUMPTION_TAX_END`. -/
def ConsumptionTaxManager.init (consumption_taxes : List ConsumptionTax) :
    Except String ConsumptionTaxManager :=
  if consumption_taxes = [] then
    .error emptyInputMsg
  else
    let sorted := sort_by_begin consumption_taxes
    match ensure_consumption_tax_periods_are_continuous sorted with
    | .error e => .error e
    | .ok false => .error discontinuousMsg
    | .ok true =>
      let clamped := setBeginAt sorted 0 MIN_CONSUMPTION_TAX_BEGIN
      .ok (setEndAt clamped (clamped.length - 1) MAX_CONSUMPTION_TAX_END)

/-- Error message of `consumption_tax_rate` at `MAX_CONSUMPTION_TAX_END`
(`Unmanaged`). -/
def unmanagedMsg : String := "Unmanaged: no tax rate is managed at this instant"

/-- Error message of `consumption_tax_rate`'s defensive `RuntimeError`
branch (`InternalInvariantViolation`). -/
def internalInvariantMsg : String := "InternalInvariantViolation"

/-- `ConsumptionTaxManager.consumption_tax_rate`: the `is_jst_datetime`
guard is identically true in this model; then the `MAX` sentinel is
rejected, and the first interval with `begin <= dt < end` yields its rate,
with the defensive `RuntimeError` branch if none is found. -/
def consumption_tax_rate (taxes : ConsumptionTaxManager) (dt : Instant) :
    Except String ℚ :=
  if dt = MAX_CONSUMPTION_TAX_END then .error unmanagedMsg
  else
    match taxes.find? (fun t => decide (t.begin ≤ dt ∧ dt < t.«end»)) with
    | some t => .ok t.rate
    | none => .error internalInvariantMsg

/-- `retrieve_contained_consumption_tax_index`: index of the first interval
whose span contains `tax`'s span, `-1` if there is none. -/
def retrieve_contained_consumption_tax_index
    (taxes : List ConsumptionTax) (tax : ConsumptionTax) : Int :=
  match taxes.findIdx? (fun t => t.contains tax) with
  | some i => (i : Int)
  | none => -1

/-- The `for tax in new_taxes[1:]: taxes.insert(index, tax); index += 1`
loop of `generate_consumption_taxes_for_included_addition`. -/
def insertAllAt (l : List ConsumptionTax) (i : Nat) :
    List ConsumptionTax → List ConsumptionTax
  | [] => l
  | x :: xs => insertAllAt (insertAt l i x) (i + 1) xs

/-- `generate_consumption_taxes_for_included_addition`: build the up-to-three
replacement fragments (left remainder of the container, the addition, right
remainder of the container), overwrite `taxes[index]` with the first one and
insert the rest right after it.  `fid1`/`fid2` model the two `uuid.uuid4()`
fresh ids. -/
def generate_consumption_taxes_for_included_addition
    (taxes : List ConsumptionTax) (index : Nat) (addition : ConsumptionTax)
    (fid1 fid2 : Nat) : List ConsumptionTax :=
  let container := taxes.getD index addition
  let new_taxes : List ConsumptionTax :=
    (if container.begin < addition.begin then
      [⟨fid1, container.begin, addition.begin, container.rate⟩]
     else []) ++
    [addition] ++
    (if addition.«end» < container.«end» then
      [⟨fid2, addition.«end», container.«end», container.rate⟩]
     else [])
  insertAllAt (taxes.set index (new_taxes.getD 0 addition)) (index + 1)
    (new_taxes.drop 1)

/-- `bisect.bisect_left(taxes, x, key=attrgetter("begin"))`: on a list
sorted ascending by `begin` (which holds at the call site, a consequence of
the manager's invariant), the leftmost insertion position for key `x`
equals the number of elements whose `begin` is smaller than `x`. -/
def bisect_left_by_begin (taxes : List ConsumptionTax) (x : Instant) : Nat :=
  taxes.countP (fun t => decide (t.begin < x))

/-- `generate_consumption_taxes_for_overlapped_addition`: drop every
interval wholly inside the addition's span, insert the addition at the
ascending insertion position of its `begin`, patch the neighbour at
`index - 1` only when `1 < index` and the neighbour at `index + 1` when one
exists, then force the sentinel bounds at both ends. -/
def generate_consumption_taxes_for_overlapped_addition
    (taxes : List ConsumptionTax) (addition : ConsumptionTax) :
    List ConsumptionTax :=
  let taxes1 := taxes.filter (fun t => ! addition.contains t)
  let index := bisect_left_by_begin taxes1 addition.begin
  let taxes2 := insertAt taxes1 index addition
  let taxes3 :=
    if 1 < index then setEndAt taxes2 (index - 1) addition.begin else taxes2
  let taxes4 :=
    if index < taxes3.length - 1 then setBeginAt taxes3 (index + 1) addition.«end»
    else taxes3
  let taxes5 := setBeginAt taxes4 0 MIN_CONSUMPTION_TAX_BEGIN
  setEndAt taxes5 (taxes5.length - 1) MAX_CONSUMPTION_TAX_END

/-- The while loop of `marge_consumption_tax_period`: `cur` is
`taxes[index - 1]`, the argument list is `taxes[index:]`.  Adjacent equal
rates extend `cur`'s `end` and drop the later interval. -/
def marge_loop (cur : ConsumptionTax) : List ConsumptionTax → List ConsumptionTax
  | [] => [cur]
  | b :: rest =>
    if cur.rate = b.rate then marge_loop ⟨cur.id, cur.begin, b.«end», cur.rate⟩ rest
    else cur :: marge_loop b rest

/-- `marge_consumption_tax_period` (the merge pass): collapse every run of
adjacent equal-rate intervals into its first interval extended to the run's
last `end`. -/
def marge_consumption_tax_period : List ConsumptionTax → List ConsumptionTax
  | [] => []
  | t :: rest => marge_loop t rest

/-- `ConsumptionTaxManager.add_consumption_tax`: dispatch on whether some
existing interval contains the addition, then run the merge pass.
`fid1`/`fid2` model the fresh `uuid.uuid4()` ids of the containment
branch. -/
def add_consumption_tax (taxes : ConsumptionTaxManager)
    (addition : ConsumptionTax) (fid1 fid2 : Nat) : ConsumptionTaxManager :=
  let index := retrieve_contained_consumption_tax_index taxes addition
  let taxes1 :=
    if 0 ≤ index then
      generate_consumption_taxes_for_included_addition taxes index.toNat addition
        fid1 fid2
    else
      generate_consumption_taxes_for_overlapped_addition taxes addition
  marge_consumption_tax_period taxes1

/-- Error message of `modify_consumption_tax_rate` when no id matches
(`NotFound`). -/
def notFoundMsg : String := "NotFound: no tax in the list has the given id"

/-- `target.rate = renewal` where `target` is the first interval whose id
matches: only the first match is mutated. -/
def set_rate_of_first (id : Nat) (renewal : ℚ) :
    List ConsumptionTax → List ConsumptionTax
  | [] => []
  | t :: ts =>
    if t.id = id then ⟨t.id, t.begin, t.«end», renewal⟩ :: ts
    else t :: set_rate_of_first id renewal ts

/-- `ConsumptionTaxManager.modify_consumption_tax_rate`: validate the rate
by constructing a dummy `ConsumptionTax` over the full axis (the dummy id
models `uuid.uuid4()`), search the first interval with the given id, set
its rate and run the merge pass.  The state component of the result is the
`consumption_taxes` list when the method returns or raises. -/
def modify_consumption_tax_rate (taxes : ConsumptionTaxManager) (id : Nat)
    (renewal : ℚ) : ConsumptionTaxManager × Option String :=
  match mkConsumptionTax 0 MIN_CONSUMPTION_TAX_BEGIN MAX_CONSUMPTION_TAX_END
      renewal with
  | .error e => (taxes, some e)
  | .ok _ =>
    match taxes.find? (fun t => t.id == id) with
    | none => (taxes, some notFoundMsg)
    | some _ =>
      (marge_consumption_tax_period (set_rate_of_first id renewal taxes), none)

/-- Error message of `remove_consumption_tax` on a list with at most one
element (`CannotEmpty`). -/
def cannotEmptyMsg : String := "CannotEmpty: the tax list cannot become empty"

/-- `ConsumptionTaxManager.remove_consumption_tax`: refuse when at most one
interval remains, find the index of the matching id, bridge the successor's
`begin` to the predecessor's `end` when the target is interior, re-force the
sentinel at the affected side when the target is first or last, delete the
target and run the merge pass. -/
def remove_consumption_tax (taxes : ConsumptionTaxManager) (id : Nat) :
    ConsumptionTaxManager × Option String :=
  let number_of_taxes := taxes.length
  if number_of_taxes ≤ 1 then (taxes, some cannotEmptyMsg)
  else
    match taxes.findIdx? (fun t => t.id == id) with
    | none => (taxes, some notFoundMsg)
    | some index =>
      let taxes1 :=
        if 0 < index ∧ 1 < number_of_taxes - index then
          setBeginAt taxes (index + 1)
            ((taxes.getD (index - 1) ⟨0, 0, 0, 0⟩).«end»)
        else taxes
      let taxes2 :=
        if index = 0 then setBeginAt taxes1 1 MIN_CONSUMPTION_TAX_BEGIN
        else taxes1
      let taxes3 :=
        if index = number_of_taxes - 1 then
          setEndAt taxes2 (index - 1) MAX_CONSUMPTION_TAX_END
        else taxes2
      (marge_consumption_tax_period (eraseAt taxes3 index), none)

/-! ### The class invariant

The docstring of `ConsumptionTaxManager` states the invariant of the
managed list: at least one tax, periods continuous without gap or overlap,
and the whole span running from `MIN_CONSUMPTION_TAX_BEGIN` to
`MAX_CONSUMPTION_TAX_END`.  The spec additionally demands ascending order
by `begin`, the canonical no-adjacent-equal-rates form, and (data model,
spec section 3 / 4.1) that every stored interval is a validly constructed
`ConsumptionTax`. -/

/-- Boolean check that every adjacent pair of the list satisfies `r`. -/
def chainB (r : ConsumptionTax → ConsumptionTax → Bool) :
    List ConsumptionTax → Bool
  | [] => true
  | [_] => true
  | a :: b :: rest => r a b && chainB r (b :: rest)

/-- The list is sorted ascending by `begin`. -/
def sortedByBeginB (taxes : List ConsumptionTax) : Bool :=
  chainB (fun a b => decide (a.begin ≤ b.begin)) taxes

/-- Every adjacent pair satisfies `a.end == b.begin` (gapless, no overlap). -/
def gaplessB (taxes : List ConsumptionTax) : Bool :=
  chainB (fun a b => decide (a.«end» = b.begin)) taxes

/-- No two adjacent intervals share a rate (canonical merged form). -/
def distinctAdjacentRatesB (taxes : List ConsumptionTax) : Bool :=
  chainB (fun a b => decide (a.rate ≠ b.rate)) taxes

/-- The constraints `ConsumptionTax.__init__` enforces on its fields. -/
def TaxValid (t : ConsumptionTax) : Prop :=
  MIN_CONSUMPTION_TAX_BEGIN ≤ t.begin ∧ t.begin < MAX_CONSUMPTION_TAX_END ∧
  MIN_CONSUMPTION_TAX_BEGIN < t.«end» ∧ t.«end» ≤ MAX_CONSUMPTION_TAX_END ∧
  t.begin < t.«end» ∧
  MIN_CONSUMPTION_TAX_RATE ≤ t.rate ∧ t.rate < MAX_CONSUMPTION_TAX_RATE

instance : DecidablePred TaxValid := fun t => by
  unfold TaxValid; infer_instance

/-- The class invariant of `ConsumptionTaxManager`: a non-empty list of
validly constructed taxes, sorted by `begin`, gapless, spanning exactly
`[MIN_CONSUMPTION_TAX_BEGIN, MAX_CONSUMPTION_TAX_END)`, with no two
adjacent equal rates. -/
def ManagerInvariant (taxes : List ConsumptionTax) : Prop :=
  taxes ≠ [] ∧
  (∀ t ∈ taxes, TaxValid t) ∧
  sortedByBeginB taxes = true ∧
  gaplessB taxes = true ∧
  taxes.head?.map (fun t => t.begin) = some MIN_CONSUMPTION_TAX_BEGIN ∧
  (taxes.getLast?.map fun t => t.«end») = some MAX_CONSUMPTION_TAX_END ∧
  distinctAdjacentRatesB taxes = true

instance : DecidablePred ManagerInvariant := fun taxes => by
  unfold ManagerInvariant; infer_instance

instance : DecidableEq (Except String ℚ) := fun a b =>
  match a, b with
  | .error e, .error f =>
    if h : e = f then .isTrue (by rw [h])
    else .isFalse (fun hc => h (by cases hc; rfl))
  | .ok x, .ok y =>
    if h : x = y then .isTrue (by rw [h])
    else .isFalse (fun hc => h (by cases hc; rfl))
  | .error _, .ok _ => .isFalse (fun hc => by cases hc)
  | .ok _, .error _ => .isFalse (fun hc => by cases hc)

/-! ### Concrete instants and rates for the spec's scenarios

Day labels of the spec's scenarios, mapped to the `Nat` axis: Feb1 = 2,
Apr1 = 4, May1 = 5, Jun1 = 6.  Rates are built with `Rat.mk'` so that they
evaluate by kernel reduction: `rate005` is 0.05 = 1/20, `rate010` is
0.10 = 1/10, `rate015` is 0.15 = 3/20, `rate020` is 0.20 = 1/5. -/

def rate005 : ℚ := Rat.mk' 1 20 (by decide) (by decide)

def rate010 : ℚ := Rat.mk' 1 10 (by decide) (by decide)

def rate015 : ℚ := Rat.mk' 3 20 (by decide) (by decide)

def rate020 : ℚ := Rat.mk' 1 5 (by decide) (by decide)

/-- The manager list of the spec's scenario 1:
`[MIN,Apr1)=0.05, [Apr1,Jun1)=0.10, [Jun1,MAX)=0.15`. -/
def baseTaxes : List ConsumptionTax :=
  [⟨0, 0, 4, rate005⟩, ⟨1, 4, 6, rate010⟩,
   ⟨2, 6, MAX_CONSUMPTION_TAX_END, rate015⟩]

/-- An addition `[Feb1, May1) = 0.20` whose span is contained in no single
existing interval of `baseTaxes`: it triggers the overlapped branch with
insertion position 1. -/
def bugAddition : ConsumptionTax := ⟨10, 2, 5, rate020⟩

/-- What `add_consumption_tax baseTaxes bugAddition` actually produces:
the predecessor `[MIN, Apr1)` keeps its old `end = Apr1` although the
addition begins at Feb1. -/
def bugResult : List ConsumptionTax :=
  [⟨0, 0, 4, rate005⟩, ⟨10, 2, 5, rate020⟩, ⟨1, 5, 6, rate010⟩,
   ⟨2, 6, MAX_CONSUMPTION_TAX_END, rate015⟩]

/-! ### Properties of the merge pass -/

lemma marge_loop_head : ∀ (l : List ConsumptionTax) (cur),
    ∃ hd tl, marge_loop cur l = hd :: tl ∧ hd.id = cur.id ∧
      hd.begin = cur.begin ∧ hd.rate = cur.rate := by
  intro l
  induction l with
  | nil => exact fun cur => ⟨cur, [], rfl, rfl, rfl, rfl⟩
  | cons b rest ih =>
    intro cur
    by_cases h : cur.rate = b.rate
    · simpa [marge_loop, h] using ih ⟨cur.id, cur.begin, b.«end», cur.rate⟩
    · exact ⟨cur, marge_loop b rest, by simp [marge_loop, h], rfl, rfl, rfl⟩

lemma marge_loop_getLast_end : ∀ (l : List ConsumptionTax) (cur),
    ((marge_loop cur l).getLast?.map fun t => t.«end») =
      ((cur :: l).getLast?.map fun t => t.«end») := by
  intro l
  induction l with
  | nil => exact fun _ => rfl
  | cons b rest ih =>
    intro cur
    by_cases h : cur.rate = b.rate
    · rw [marge_loop, if_pos h, ih ⟨cur.id, cur.begin, b.«end», cur.rate⟩]
      cases rest with
      | nil => rfl
      | cons r rs => simp [List.getLast?_cons_cons]
    · obtain ⟨hd, tl, heq, -, -, -⟩ := marge_loop_head rest b
      rw [marge_loop, if_neg h]
      have h2 := ih b
      rw [heq] at h2 ⊢
      simpa [List.getLast?_cons_cons] using h2

lemma marge_loop_distinct : ∀ (l : List ConsumptionTax) (cur),
    distinctAdjacentRatesB (marge_loop cur l) = true := by
  intro l
  induction l with
  | nil => exact fun _ => rfl
  | cons b rest ih =>
    intro cur
    by_cases h : cur.rate = b.rate
    · simpa [marge_loop, h] using ih ⟨cur.id, cur.begin, b.«end», cur.rate⟩
    · obtain ⟨hd, tl, heq, -, -, hrate⟩ := marge_loop_head rest b
      have h2 := ih b
      rw [marge_loop, if_neg h, heq]
      rw [heq] at h2
      simp only [distinctAdjacentRatesB, chainB, Bool.and_eq_true,
        decide_eq_true_eq] at h2 ⊢
      exact ⟨by rw [hrate]; exact fun he => h he, h2⟩

lemma marge_loop_eq_self : ∀ (l : List ConsumptionTax) (cur),
    distinctAdjacentRatesB (cur :: l) = true → marge_loop cur l = cur :: l := by
  intro l
  induction l with
  | nil => exact fun _ _ => rfl
  | cons b rest ih =>
    intro cur hc
    simp only [distinctAdjacentRatesB, chainB, Bool.and_eq_true,
      decide_eq_true_eq] at hc
    rw [marge_loop, if_neg hc.1, ih b hc.2]

lemma marge_eq_self (l : List ConsumptionTax)
    (h : distinctAdjacentRatesB l = true) :
    marge_consumption_tax_period l = l := by
  cases l with
  | nil => rfl
  | cons t rest => exact marge_loop_eq_self rest t h

/-- Claim C10: for every non-empty list, the merge pass returns a non-empty
list whose first element keeps the input's first `begin` and whose last
element keeps the input's last `end` — the merge pass never changes the
endpoints of the covered span. -/
theorem claim_C10_merge_preserves_span (taxes : List ConsumptionTax)
    (h : taxes ≠ []) :
    marge_consumption_tax_period taxes ≠ [] ∧
    (marge_consumption_tax_period taxes).head?.map (fun t => t.begin) =
      taxes.head?.map (fun t => t.begin) ∧
    ((marge_consumption_tax_period taxes).getLast?.map fun t => t.«end») =
      (taxes.getLast?.map fun t => t.«end») := by
  cases taxes with
  | nil => exact absurd rfl h
  | cons t rest =>
    obtain ⟨hd, tl, heq, -, hbegin, -⟩ := marge_loop_head rest t
    refine ⟨?_, ?_, marge_loop_getLast_end rest t⟩
    · show marge_loop t rest ≠ []
      rw [heq]; exact List.cons_ne_nil hd tl
    · show (marge_loop t rest).head?.map (fun t => t.begin) = _
      rw [heq]; simp [hbegin]

/-- Witness for C10 at a concrete two-interval list with equal rates. -/
theorem claim_C10_witness :
    ([⟨0, 0, 4, rate005⟩, ⟨1, 4, 9, rate005⟩] : List ConsumptionTax) ≠ [] ∧
    (marge_consumption_tax_period
        [⟨0, 0, 4, rate005⟩, ⟨1, 4, 9, rate005⟩] ≠ [] ∧
      (marge_consumption_tax_period
          [⟨0, 0, 4, rate005⟩, ⟨1, 4, 9, rate005⟩]).head?.map
          (fun t => t.begin) =
        ([⟨0, 0, 4, rate005⟩, ⟨1, 4, 9, rate005⟩] :
          List ConsumptionTax).head?.map (fun t => t.begin) ∧
      ((marge_consumption_tax_period
          [⟨0, 0, 4, rate005⟩, ⟨1, 4, 9, rate005⟩]).getLast?.map
          fun t => t.«end») =
        (([⟨0, 0, 4, rate005⟩, ⟨1, 4, 9, rate005⟩] :
          List ConsumptionTax).getLast?.map fun t => t.«end»)) :=
  ⟨by decide, claim_C10_merge_preserves_span _ (by decide)⟩

/-! ### Claim C5: the merge pass and modify_rate on a 3-element list -/

lemma mkConsumptionTax_dummy (id : Nat) (r : ℚ) :
    mkConsumptionTax id MIN_CONSUMPTION_TAX_BEGIN MAX_CONSUMPTION_TAX_END r =
      if validate_consumption_tax_rate r then
        .ok ⟨id, MIN_CONSUMPTION_TAX_BEGIN, MAX_CONSUMPTION_TAX_END, r⟩
      else .error invalidRateMsg := by
  by_cases hv : validate_consumption_tax_rate r = true <;>
    simp [mkConsumptionTax, MIN_CONSUMPTION_TAX_BEGIN, MAX_CONSUMPTION_TAX_END,
      hv]

/-- The middle interval of a list whose outer rates are both 0.05: setting
the middle rate to 0.05 makes it equal to BOTH neighbours' rates. -/
def bothSidesTaxes : List ConsumptionTax :=
  [⟨0, 0, 4, rate005⟩, ⟨1, 4, 6, rate010⟩,
   ⟨2, 6, MAX_CONSUMPTION_TAX_END, rate005⟩]

/-- Counterexample to claim C5 as stated: `bothSidesTaxes` is a 3-element
list satisfying the class invariant, the new rate 0.05 equals one
neighbour's rate (in fact both), `modify_consumption_tax_rate` succeeds,
and the resulting list has length 1, not 2: all three intervals merge. -/
theorem claim_C5_counterexample :
    bothSidesTaxes.length = 3 ∧
    ManagerInvariant bothSidesTaxes ∧
    (bothSidesTaxes.getD 0 ⟨0, 0, 0, rate005⟩).rate = rate005 ∧
    (modify_consumption_tax_rate bothSidesTaxes 1 rate005).2 = none ∧
    (modify_consumption_tax_rate bothSidesTaxes 1 rate005).1.length = 1 ∧
    (modify_consumption_tax_rate bothSidesTaxes 1 rate005).1.length ≠ 2 := by
  decide

/-- Claim C5, amended: the merge pass always leaves a list with no two
adjacent equal rates; and `modify_rate` on the middle interval of a
3-element canonical list, with a new rate equal to exactly one neighbour's
rate (and different from the other's), leaves a list of length exactly 2.
(As stated the claim fails when the new rate equals both neighbours'
rates: then the length drops to 1, see the counterexample.) -/
theorem claim_C5_merge_pass :
    (∀ l, distinctAdjacentRatesB (marge_consumption_tax_period l) = true) ∧
    (∀ (a b c : ConsumptionTax) (r : ℚ), a.id ≠ b.id →
      validate_consumption_tax_rate r = true →
      a.rate ≠ b.rate → b.rate ≠ c.rate →
      ((r = a.rate ∧ r ≠ c.rate) ∨ (r = c.rate ∧ r ≠ a.rate)) →
      (modify_consumption_tax_rate [a, b, c] b.id r).2 = none ∧
      (modify_consumption_tax_rate [a, b, c] b.id r).1.length = 2) := by
  constructor
  · intro l
    cases l with
    | nil => rfl
    | cons t rest => exact marge_loop_distinct rest t
  · intro a b c r hab hr _h1 _h2 hcase
    have hbeq : (a.id == b.id) = false := by
      simp only [beq_eq_false_iff_ne, ne_eq]
      exact hab
    have hfind : ([a, b, c].find? fun t => t.id == b.id) = some b := by
      simp [List.find?, hbeq]
    have hset : set_rate_of_first b.id r [a, b, c] =
        [a, ⟨b.id, b.begin, b.«end», r⟩, c] := by
      simp [set_rate_of_first, hab]
    unfold modify_consumption_tax_rate
    rw [mkConsumptionTax_dummy, if_pos hr, hfind, hset]
    rcases hcase with ⟨hra, hrc⟩ | ⟨hrc, hra⟩
    · have ha : a.rate = r := hra.symm
      simp [marge_consumption_tax_period, marge_loop, ha, hrc.symm,
        fun h : r = c.rate => hrc h]
    · have hna : ¬ a.rate = r := fun h => hra h.symm
      simp [marge_consumption_tax_period, marge_loop, hna, hrc.symm]

/-- Witness for C5's amended theorem at concrete inputs. -/
theorem claim_C5_witness :
    ((⟨0, 0, 4, rate005⟩ : ConsumptionTax).id ≠
        (⟨1, 4, 6, rate010⟩ : ConsumptionTax).id ∧
      validate_consumption_tax_rate rate005 = true) ∧
    (modify_consumption_tax_rate
        [⟨0, 0, 4, rate005⟩, ⟨1, 4, 6, rate010⟩,
          ⟨2, 6, MAX_CONSUMPTION_TAX_END, rate015⟩]
        (⟨1, 4, 6, rate010⟩ : ConsumptionTax).id rate005).2 = none ∧
    (modify_consumption_tax_rate
        [⟨0, 0, 4, rate005⟩, ⟨1, 4, 6, rate010⟩,
          ⟨2, 6, MAX_CONSUMPTION_TAX_END, rate015⟩]
        (⟨1, 4, 6, rate010⟩ : ConsumptionTax).id rate005).1.length = 2 :=
  ⟨⟨by decide, by decide⟩,
    claim_C5_merge_pass.2 ⟨0, 0, 4, rate005⟩ ⟨1, 4, 6, rate010⟩
      ⟨2, 6, MAX_CONSUMPTION_TAX_END, rate015⟩ rate005 (by decide) (by decide)
      (by decide) (by decide) (Or.inl ⟨by decide, by decide⟩)⟩

/-! ### Claims C1 and C2: the overlapped-addition branch and the lost
predecessor stitch

`generate_consumption_taxes_for_overlapped_addition` patches the
predecessor's `end` only under `1 < index`.  When the insertion position is
exactly 1 the predecessor exists but keeps its old `end`, so the list ends
up with a gap (or overlap) between positions 0 and 1. -/

/-- Claim C1 is violated by the code: `baseTaxes` satisfies the class
invariant and `bugAddition` is a validly constructed tax, yet after the
(successful, exception-free) `add_consumption_tax` call the list is no
longer gapless: element 0 ends at 4 while element 1 begins at 2. -/
theorem claim_C1_code_bug_add_breaks_invariant :
    ManagerInvariant baseTaxes ∧
    TaxValid bugAddition ∧
    add_consumption_tax baseTaxes bugAddition 100 101 = bugResult ∧
    gaplessB bugResult = false ∧
    ¬ ManagerInvariant bugResult := by
  decide

/-- Claim C2 is violated by the code: on `baseTaxes` the addition triggers
the insert branch (no existing interval contains it and nothing is wholly
contained in it), the ascending insertion position of its `begin` is 1, so
a predecessor exists after insertion — but the predecessor's `end` is left
at its old value instead of being set to `addition.begin`. -/
theorem claim_C2_code_bug_predecessor_not_stitched :
    retrieve_contained_consumption_tax_index baseTaxes bugAddition = -1 ∧
    baseTaxes.filter (fun t => ! bugAddition.contains t) = baseTaxes ∧
    bisect_left_by_begin baseTaxes bugAddition.begin = 1 ∧
    generate_consumption_taxes_for_overlapped_addition baseTaxes bugAddition =
      bugResult ∧
    ((generate_consumption_taxes_for_overlapped_addition baseTaxes
        bugAddition).getD 0 ⟨0, 0, 0, rate005⟩).«end» ≠ bugAddition.begin := by
  decide

/-! ### Index surgery on lists decomposed as appends -/

lemma modifyAt_length (l : List ConsumptionTax) (i : Nat)
    (f : ConsumptionTax → ConsumptionTax) :
    (modifyAt l i f).length = l.length := by
  induction l generalizing i with
  | nil => rfl
  | cons x xs ih =>
    cases i with
    | zero => rfl
    | succ k => simp [modifyAt, ih]

lemma getD_append (l1 l2 : List ConsumptionTax) (t d : ConsumptionTax) :
    (l1 ++ t :: l2).getD l1.length d = t := by
  induction l1 with
  | nil => rfl
  | cons x xs ih => simpa [List.getD] using ih

lemma set_append (l1 l2 : List ConsumptionTax) (t a : ConsumptionTax) :
    (l1 ++ t :: l2).set l1.length a = l1 ++ a :: l2 := by
  induction l1 with
  | nil => rfl
  | cons x xs ih => simp [List.set, ih]

lemma insertAt_append (l1 l2 : List ConsumptionTax) (a : ConsumptionTax) :
    insertAt (l1 ++ l2) l1.length a = l1 ++ a :: l2 := by
  induction l1 with
  | nil => cases l2 <;> rfl
  | cons x xs ih => simpa [insertAt] using ih

lemma modifyAt_append (l1 l2 : List ConsumptionTax) (k : Nat)
    (f : ConsumptionTax → ConsumptionTax) :
    modifyAt (l1 ++ l2) (l1.length + k) f = l1 ++ modifyAt l2 k f := by
  induction l1 with
  | nil => simp
  | cons x xs ih =>
    simp only [List.cons_append, List.length_cons]
    have h : xs.length + 1 + k = (xs.length + k) + 1 := by omega
    rw [h]
    show x :: modifyAt (xs ++ l2) (xs.length + k) f = _
    rw [ih]

lemma eraseAt_append (l1 l2 : List ConsumptionTax) (t : ConsumptionTax) :
    eraseAt (l1 ++ t :: l2) l1.length = l1 ++ l2 := by
  induction l1 with
  | nil => rfl
  | cons x xs ih => simpa [eraseAt] using ih

lemma insertAllAt_append (xs : List ConsumptionTax) :
    ∀ (l1 l2 : List ConsumptionTax),
      insertAllAt (l1 ++ l2) l1.length xs = l1 ++ xs ++ l2 := by
  induction xs with
  | nil => intro l1 l2; simp [insertAllAt]
  | cons x xs ih =>
    intro l1 l2
    rw [insertAllAt, insertAt_append]
    have h2 := ih (l1 ++ [x]) l2
    simp only [List.length_append, List.length_cons, List.length_nil,
      List.append_assoc, List.cons_append, List.nil_append] at h2
    simpa using h2

lemma insertAllAt_cons_append (l1 l2 : List ConsumptionTax)
    (hd : ConsumptionTax) (tl : List ConsumptionTax) :
    insertAllAt (l1 ++ hd :: l2) (l1.length + 1) tl =
      l1 ++ hd :: (tl ++ l2) := by
  have h2 := insertAllAt_append tl (l1 ++ [hd]) l2
  simp only [List.length_append, List.length_cons, List.length_nil,
    List.append_assoc, List.cons_append, List.nil_append] at h2
  simpa using h2

lemma insertAllAt_after_set (l1 l2 : List ConsumptionTax)
    (c hd : ConsumptionTax) (tl : List ConsumptionTax) :
    insertAllAt ((l1 ++ c :: l2).set l1.length hd) (l1.length + 1) tl =
      l1 ++ hd :: (tl ++ l2) := by
  rw [set_append, insertAllAt_cons_append]

lemma generate_included_spec (l1 l2 : List ConsumptionTax)
    (container addition : ConsumptionTax) (fid1 fid2 : Nat) :
    generate_consumption_taxes_for_included_addition (l1 ++ container :: l2)
        l1.length addition fid1 fid2 =
      l1 ++
        ((if container.begin < addition.begin then
            [⟨fid1, container.begin, addition.begin, container.rate⟩]
          else []) ++
          [addition] ++
          (if addition.«end» < container.«end» then
            [⟨fid2, addition.«end», container.«end», container.rate⟩]
          else [])) ++
        l2 := by
  simp only [generate_consumption_taxes_for_included_addition, getD_append]
  by_cases hb : container.begin < addition.begin <;>
    by_cases he : addition.«end» < container.«end» <;>
      simp [hb, he, insertAllAt_after_set, insertAllAt_cons_append]

/-- Claim C4: in the containment branch the replacement consists, in order,
of the left remainder of the container (only when `container.begin <
addition.begin`), the unchanged addition, and the right remainder (only
when `addition.end < container.end`); the container (at index `l1.length`)
is replaced by the first of these with the rest inserted right after.
When the spans coincide exactly the net effect is a one-for-one
replacement.  On the concrete scenario list `[MIN,Apr1)=0.05,
[Apr1,Jun1)=0.10, [Jun1,MAX)=0.15`, adding `[Apr1,May1)=0.20` yields the
four intervals `[MIN,Apr1)=0.05, [Apr1,May1)=0.20, [May1,Jun1)=0.10,
[Jun1,MAX)=0.15`. -/
theorem claim_C4_included_addition :
    (∀ (l1 l2 : List ConsumptionTax) (container addition : ConsumptionTax)
      (fid1 fid2 : Nat),
      generate_consumption_taxes_for_included_addition (l1 ++ container :: l2)
          l1.length addition fid1 fid2 =
        l1 ++
          ((if container.begin < addition.begin then
              [⟨fid1, container.begin, addition.begin, container.rate⟩]
            else []) ++
            [addition] ++
            (if addition.«end» < container.«end» then
              [⟨fid2, addition.«end», container.«end», container.rate⟩]
            else [])) ++
          l2) ∧
    (∀ (l1 l2 : List ConsumptionTax) (container addition : ConsumptionTax)
      (fid1 fid2 : Nat),
      container.begin = addition.begin → container.«end» = addition.«end» →
      generate_consumption_taxes_for_included_addition (l1 ++ container :: l2)
          l1.length addition fid1 fid2 = l1 ++ addition :: l2) ∧
    add_consumption_tax baseTaxes ⟨10, 4, 5, rate020⟩ 100 101 =
      [⟨0, 0, 4, rate005⟩, ⟨10, 4, 5, rate020⟩, ⟨101, 5, 6, rate010⟩,
        ⟨2, 6, MAX_CONSUMPTION_TAX_END, rate015⟩] := by
  refine ⟨generate_included_spec, ?_, by decide⟩
  intro l1 l2 container addition fid1 fid2 hb he
  rw [generate_included_spec]
  simp [hb, he]

/-- Witness for C4's exact-span conjunct at concrete inputs. -/
theorem claim_C4_witness :
    ((⟨1, 4, 6, rate010⟩ : ConsumptionTax).begin =
        (⟨10, 4, 6, rate020⟩ : ConsumptionTax).begin ∧
      (⟨1, 4, 6, rate010⟩ : ConsumptionTax).«end» =
        (⟨10, 4, 6, rate020⟩ : ConsumptionTax).«end») ∧
    generate_consumption_taxes_for_included_addition
        ([⟨0, 0, 4, rate005⟩] ++ ⟨1, 4, 6, rate010⟩ ::
          [⟨2, 6, MAX_CONSUMPTION_TAX_END, rate015⟩])
        ([⟨0, 0, 4, rate005⟩] : List ConsumptionTax).length
        ⟨10, 4, 6, rate020⟩ 100 101 =
      [⟨0, 0, 4, rate005⟩] ++ ⟨10, 4, 6, rate020⟩ ::
        [⟨2, 6, MAX_CONSUMPTION_TAX_END, rate015⟩] :=
  ⟨⟨by decide, by decide⟩,
    claim_C4_included_addition.2.1 [⟨0, 0, 4, rate005⟩]
      [⟨2, 6, MAX_CONSUMPTION_TAX_END, rate015⟩] ⟨1, 4, 6, rate010⟩
      ⟨10, 4, 6, rate020⟩ 100 101 (by decide) (by decide)⟩

/-! ### Sorting and continuity lemmas for the constructor -/

lemma chainB_cons_cons (r : ConsumptionTax → ConsumptionTax → Bool)
    (a b : ConsumptionTax) (l : List ConsumptionTax) :
    chainB r (a :: b :: l) = (r a b && chainB r (b :: l)) := rfl

lemma chainB_tail (r : ConsumptionTax → ConsumptionTax → Bool)
    (x : ConsumptionTax) (l : List ConsumptionTax)
    (h : chainB r (x :: l) = true) : chainB r l = true := by
  cases l with
  | nil => rfl
  | cons y ys =>
    have h2 := h
    rw [chainB_cons_cons, Bool.and_eq_true] at h2
    exact h2.2

lemma chainB_append_right (r : ConsumptionTax → ConsumptionTax → Bool) :
    ∀ (l1 l2 : List ConsumptionTax), chainB r (l1 ++ l2) = true →
      chainB r l2 = true := by
  intro l1
  induction l1 with
  | nil => exact fun l2 h => h
  | cons x xs ih => exact fun l2 h => ih l2 (chainB_tail r x (xs ++ l2) h)

lemma insert_sorted_by_begin_ne_nil (t : ConsumptionTax)
    (l : List ConsumptionTax) : insert_sorted_by_begin t l ≠ [] := by
  cases l with
  | nil => simp [insert_sorted_by_begin]
  | cons x xs =>
    rw [insert_sorted_by_begin]
    split <;> simp

lemma sort_by_begin_ne_nil (l : List ConsumptionTax) (h : l ≠ []) :
    sort_by_begin l ≠ [] := by
  cases l with
  | nil => exact absurd rfl h
  | cons t ts => exact insert_sorted_by_begin_ne_nil t (sort_by_begin ts)

lemma mem_insert_sorted_by_begin (a t : ConsumptionTax) :
    ∀ (l : List ConsumptionTax),
      a ∈ insert_sorted_by_begin t l ↔ a = t ∨ a ∈ l := by
  intro l
  induction l with
  | nil => simp [insert_sorted_by_begin]
  | cons x xs ih =>
    rw [insert_sorted_by_begin]
    split
    · simp only [List.mem_cons, ih]
      tauto
    · simp

lemma mem_sort_by_begin (a : ConsumptionTax) :
    ∀ (l : List ConsumptionTax), a ∈ sort_by_begin l ↔ a ∈ l := by
  intro l
  induction l with
  | nil => simp [sort_by_begin]
  | cons x xs ih =>
    rw [sort_by_begin, mem_insert_sorted_by_begin]
    simp [ih]

lemma insert_sorted_by_begin_sorted :
    ∀ (l : List ConsumptionTax) (t : ConsumptionTax),
      sortedByBeginB l = true →
      sortedByBeginB (insert_sorted_by_begin t l) = true ∧
      ∀ hd, (insert_sorted_by_begin t l).head? = some hd →
        hd = t ∨ l.head? = some hd := by
  intro l
  induction l with
  | nil =>
    intro t _
    refine ⟨rfl, fun hd h => Or.inl ?_⟩
    rw [insert_sorted_by_begin] at h
    simp only [List.head?_cons, Option.some_inj] at h
    exact h.symm
  | cons x xs ih =>
    intro t hsor
    have hxs : sortedByBeginB xs = true := chainB_tail _ x xs hsor
    by_cases hx : x.begin < t.begin
    · obtain ⟨ihs, ihh⟩ := ih t hxs
      obtain ⟨hd, tl, hins⟩ : ∃ hd tl, insert_sorted_by_begin t xs = hd :: tl := by
        cases hi : insert_sorted_by_begin t xs with
        | nil => exact absurd hi (insert_sorted_by_begin_ne_nil t xs)
        | cons hd tl => exact ⟨hd, tl, rfl⟩
      have hhd : x.begin ≤ hd.begin := by
        rcases ihh hd (by rw [hins]; rfl) with h | h
        · rw [h]; exact Nat.le_of_lt hx
        · cases xs with
          | nil => simp at h
          | cons y ys =>
            rw [List.head?_cons, Option.some_inj] at h
            rw [← h]
            rw [sortedByBeginB, chainB_cons_cons, Bool.and_eq_true,
              decide_eq_true_eq] at hsor
            exact hsor.1
      constructor
      · rw [insert_sorted_by_begin, if_pos hx, hins]
        rw [sortedByBeginB, chainB_cons_cons, Bool.and_eq_true, decide_eq_true_eq]
        rw [hins] at ihs
        exact ⟨hhd, ihs⟩
      · intro hd2 hh
        rw [insert_sorted_by_begin, if_pos hx, List.head?_cons,
          Option.some_inj] at hh
        exact Or.inr (by rw [List.head?_cons, hh])
    · constructor
      · rw [insert_sorted_by_begin, if_neg hx]
        rw [sortedByBeginB, chainB_cons_cons, Bool.and_eq_true, decide_eq_true_eq]
        exact ⟨Nat.le_of_not_lt hx, hsor⟩
      · intro hd hh
        rw [insert_sorted_by_begin, if_neg hx, List.head?_cons,
          Option.some_inj] at hh
        exact Or.inl hh.symm

lemma sort_by_begin_sorted (l : List ConsumptionTax) :
    sortedByBeginB (sort_by_begin l) = true := by
  induction l with
  | nil => rfl
  | cons t ts ih =>
    exact (insert_sorted_by_begin_sorted (sort_by_begin ts) t ih).1

lemma continuous_from_eq : ∀ (l : List ConsumptionTax) (t : ConsumptionTax),
    continuous_from t.«end» l = gaplessB (t :: l) := by
  intro l
  induction l with
  | nil => exact fun _ => rfl
  | cons b rest ih =>
    intro t
    rw [continuous_from]
    by_cases h : b.begin = t.«end»
    · rw [if_neg (by simp [h]), ih b]
      have : decide (t.«end» = b.begin) = true := by simp [h]
      simp only [gaplessB]
      rw [chainB_cons_cons, this, Bool.true_and]
    · rw [if_pos (by simp [h])]
      have : decide (t.«end» = b.begin) = false := by
        simp only [decide_eq_false_iff_not]
        exact fun he => h he.symm
      simp only [gaplessB]
      rw [chainB_cons_cons, this, Bool.false_and]

lemma ensure_eq (t : ConsumptionTax) (rest : List ConsumptionTax) :
    ensure_consumption_tax_periods_are_continuous (t :: rest) =
      .ok (gaplessB (t :: rest)) := by
  cases rest with
  | nil => rfl
  | cons b bs =>
    show Except.ok (continuous_from t.«end» (b :: bs)) = _
    rw [continuous_from_eq]

lemma init_of_ne_nil (taxes : List ConsumptionTax) (h : taxes ≠ []) :
    ConsumptionTaxManager.init taxes =
      if gaplessB (sort_by_begin taxes) = true then
        .ok (setEndAt
          (setBeginAt (sort_by_begin taxes) 0 MIN_CONSUMPTION_TAX_BEGIN)
          ((sort_by_begin taxes).length - 1) MAX_CONSUMPTION_TAX_END)
      else .error discontinuousMsg := by
  obtain ⟨t, rest, hs⟩ : ∃ t rest, sort_by_begin taxes = t :: rest := by
    cases hx : sort_by_begin taxes with
    | nil => exact absurd hx (sort_by_begin_ne_nil taxes h)
    | cons t rest => exact ⟨t, rest, rfl⟩
  rw [ConsumptionTaxManager.init, if_neg h]
  simp only [hs, ensure_eq]
  by_cases hg : gaplessB (t :: rest) = true
  · simp [hg, setBeginAt, modifyAt_length]
  · rw [Bool.not_eq_true] at hg
    simp [hg]

lemma getLast?_cons_ne (x : ConsumptionTax) (l : List ConsumptionTax)
    (h : l ≠ []) : (x :: l).getLast? = l.getLast? := by
  cases l with
  | nil => exact absurd rfl h
  | cons y ys => exact List.getLast?_cons_cons

lemma setEndAt_ne_nil (l : List ConsumptionTax) (i : Nat) (v : Instant)
    (h : l ≠ []) : setEndAt l i v ≠ [] := by
  intro he
  have := modifyAt_length l i (fun t => ⟨t.id, t.begin, v, t.rate⟩)
  rw [show modifyAt l i (fun t => ⟨t.id, t.begin, v, t.rate⟩) = setEndAt l i v
    from rfl, he] at this
  exact h (List.eq_nil_of_length_eq_zero this.symm)

lemma setEndAt_last_getLast : ∀ (l : List ConsumptionTax) (v : Instant),
    l ≠ [] →
    ((setEndAt l (l.length - 1) v).getLast?.map fun t => t.«end») = some v := by
  intro l
  induction l with
  | nil => exact fun v h => absurd rfl h
  | cons x xs ih =>
    intro v _
    cases xs with
    | nil => rfl
    | cons y ys =>
      have hx : setEndAt (x :: y :: ys) ((x :: y :: ys).length - 1) v =
          x :: setEndAt (y :: ys) ((y :: ys).length - 1) v := by
        simp [setEndAt, modifyAt]
      rw [hx, getLast?_cons_ne x _
        (setEndAt_ne_nil (y :: ys) _ v (by simp))]
      exact ih v (by simp)

lemma clamped_head_last (l : List ConsumptionTax) (h : l ≠ []) :
    ((setEndAt (setBeginAt l 0 MIN_CONSUMPTION_TAX_BEGIN) (l.length - 1)
        MAX_CONSUMPTION_TAX_END).head?.map fun t => t.begin) =
      some MIN_CONSUMPTION_TAX_BEGIN ∧
    ((setEndAt (setBeginAt l 0 MIN_CONSUMPTION_TAX_BEGIN) (l.length - 1)
        MAX_CONSUMPTION_TAX_END).getLast?.map fun t => t.«end») =
      some MAX_CONSUMPTION_TAX_END := by
  cases l with
  | nil => exact absurd rfl h
  | cons x xs =>
    have hb : setBeginAt (x :: xs) 0 MIN_CONSUMPTION_TAX_BEGIN =
        ⟨x.id, MIN_CONSUMPTION_TAX_BEGIN, x.«end», x.rate⟩ :: xs := rfl
    rw [hb]
    cases xs with
    | nil => exact ⟨rfl, rfl⟩
    | cons y ys =>
      have hx : setEndAt
          (⟨x.id, MIN_CONSUMPTION_TAX_BEGIN, x.«end», x.rate⟩ :: y :: ys)
          ((x :: y :: ys).length - 1) MAX_CONSUMPTION_TAX_END =
          ⟨x.id, MIN_CONSUMPTION_TAX_BEGIN, x.«end», x.rate⟩ ::
            setEndAt (y :: ys) ((y :: ys).length - 1)
              MAX_CONSUMPTION_TAX_END := by
        simp [setEndAt, modifyAt]
      rw [hx]
      refine ⟨rfl, ?_⟩
      rw [getLast?_cons_ne _ _
        (setEndAt_ne_nil (y :: ys) _ MAX_CONSUMPTION_TAX_END (by simp))]
      exact setEndAt_last_getLast (y :: ys) MAX_CONSUMPTION_TAX_END (by simp)

lemma gapless_head_le : ∀ (l : List ConsumptionTax) (t : ConsumptionTax),
    gaplessB (t :: l) = true → (∀ u ∈ t :: l, u.begin < u.«end») →
    ∀ y ∈ l, t.«end» ≤ y.begin := by
  intro l
  induction l with
  | nil =>
    intro t _ _ y hy
    simp at hy
  | cons z zs ih =>
    intro t hg hv y hy
    rw [gaplessB, chainB_cons_cons, Bool.and_eq_true, decide_eq_true_eq] at hg
    rcases List.mem_cons.mp hy with rfl | hy2
    · exact Nat.le_of_eq hg.1
    · have hz : z.begin < z.«end» := hv z (by simp)
      have h2 := ih z hg.2 (fun u hu => hv u (List.mem_cons_of_mem t hu)) y hy2
      rw [hg.1]
      exact Nat.le_trans (Nat.le_of_lt hz) h2

lemma mem_mem_split : ∀ (l : List ConsumptionTax) (a b : ConsumptionTax),
    a ∈ l → b ∈ l → a ≠ b →
    ∃ l1 l2, (l = l1 ++ a :: l2 ∧ b ∈ l2) ∨ (l = l1 ++ b :: l2 ∧ a ∈ l2) := by
  intro l
  induction l with
  | nil =>
    intro a b ha
    simp at ha
  | cons x xs ih =>
    intro a b ha hb hab
    by_cases hax : a = x
    · subst hax
      have hbxs : b ∈ xs := by
        rcases List.mem_cons.mp hb with h | h
        · exact absurd h.symm hab
        · exact h
      exact ⟨[], xs, Or.inl ⟨rfl, hbxs⟩⟩
    · by_cases hbx : b = x
      · subst hbx
        have haxs : a ∈ xs := by
          rcases List.mem_cons.mp ha with h | h
          · exact absurd h hax
          · exact h
        exact ⟨[], xs, Or.inr ⟨rfl, haxs⟩⟩
      · have haxs : a ∈ xs := by
          rcases List.mem_cons.mp ha with h | h
          · exact absurd h hax
          · exact h
        have hbxs : b ∈ xs := by
          rcases List.mem_cons.mp hb with h | h
          · exact absurd h hbx
          · exact h
        obtain ⟨l1, l2, hc⟩ := ih a b haxs hbxs hab
        refine ⟨x :: l1, l2, ?_⟩
        rcases hc with ⟨he, hm⟩ | ⟨he, hm⟩
        · exact Or.inl ⟨by rw [he]; rfl, hm⟩
        · exact Or.inr ⟨by rw [he]; rfl, hm⟩

/-- Claim C6: construction fails with `EmptyInput` iff the input is empty;
the constructor sorts by `begin`; for a non-empty input it fails with
`Discontinuous` iff some adjacent pair of the sorted list breaks
`list[i].end == list[i+1].begin` (in particular two overlapping intervals
make it fail); and on success the stored list is the sorted input with the
first `begin` overwritten to `MIN_CONSUMPTION_TAX_BEGIN` and the last
`end` overwritten to `MAX_CONSUMPTION_TAX_END`. -/
theorem claim_C6_constructor (taxes : List ConsumptionTax) :
    (ConsumptionTaxManager.init taxes = .error emptyInputMsg ↔ taxes = []) ∧
    sortedByBeginB (sort_by_begin taxes) = true ∧
    (taxes ≠ [] →
      (ConsumptionTaxManager.init taxes = .error discontinuousMsg ↔
        gaplessB (sort_by_begin taxes) = false)) ∧
    (taxes ≠ [] → gaplessB (sort_by_begin taxes) = true →
      ConsumptionTaxManager.init taxes =
        .ok (setEndAt
          (setBeginAt (sort_by_begin taxes) 0 MIN_CONSUMPTION_TAX_BEGIN)
          ((sort_by_begin taxes).length - 1) MAX_CONSUMPTION_TAX_END)) ∧
    (∀ result, ConsumptionTaxManager.init taxes = .ok result →
      result.head?.map (fun t => t.begin) = some MIN_CONSUMPTION_TAX_BEGIN ∧
      (result.getLast?.map fun t => t.«end») =
        some MAX_CONSUMPTION_TAX_END) ∧
    (∀ a b, a ∈ taxes → b ∈ taxes → a ≠ b →
      (∀ t ∈ taxes, t.begin < t.«end») →
      a.begin < b.«end» → b.begin < a.«end» →
      ConsumptionTaxManager.init taxes = .error discontinuousMsg) := by
  refine ⟨?_, sort_by_begin_sorted taxes, ?_, ?_, ?_, ?_⟩
  · constructor
    · intro hinit
      by_cases hne : taxes = []
      · exact hne
      · rw [init_of_ne_nil taxes hne] at hinit
        by_cases hg : gaplessB (sort_by_begin taxes) = true
        · rw [if_pos hg] at hinit
          exact absurd hinit (by simp)
        · rw [if_neg hg] at hinit
          have : discontinuousMsg = emptyInputMsg := by
            injection hinit
          exact absurd this (by decide)
    · intro h
      subst h
      rfl
  · intro hne
    by_cases hg : gaplessB (sort_by_begin taxes) = true
    · rw [init_of_ne_nil taxes hne, if_pos hg, hg]
      simp
    · rw [init_of_ne_nil taxes hne, if_neg hg]
      simp [Bool.not_eq_true] at hg
      simp [hg]
  · intro hne hg
    rw [init_of_ne_nil taxes hne, if_pos hg]
  · intro result hres
    by_cases hne : taxes = []
    · subst hne
      exact absurd hres (by simp [ConsumptionTaxManager.init])
    · rw [init_of_ne_nil taxes hne] at hres
      by_cases hg : gaplessB (sort_by_begin taxes) = true
      · rw [if_pos hg, Except.ok.injEq] at hres
        rw [← hres]
        exact clamped_head_last (sort_by_begin taxes)
          (sort_by_begin_ne_nil taxes hne)
      · rw [if_neg hg] at hres
        exact absurd hres (by simp)
  · intro a b ha hb hab hv hob hoa
    have hne : taxes ≠ [] := by
      intro h
      rw [h] at ha
      simp at ha
    rw [init_of_ne_nil taxes hne]
    have hg : ¬ gaplessB (sort_by_begin taxes) = true := by
      intro hg
      have has : a ∈ sort_by_begin taxes := (mem_sort_by_begin a taxes).mpr ha
      have hbs : b ∈ sort_by_begin taxes := (mem_sort_by_begin b taxes).mpr hb
      have hvs : ∀ t ∈ sort_by_begin taxes, t.begin < t.«end» :=
        fun t ht => hv t ((mem_sort_by_begin t taxes).mp ht)
      obtain ⟨l1, l2, hc⟩ := mem_mem_split (sort_by_begin taxes) a b has hbs hab
      rcases hc with ⟨he, hm⟩ | ⟨he, hm⟩
      · have hg2 : gaplessB (a :: l2) = true := by
          rw [he] at hg
          exact chainB_append_right _ l1 (a :: l2) hg
        have hle := gapless_head_le l2 a hg2
          (fun u hu => hvs u (by rw [he]; exact List.mem_append_right l1 hu))
          b hm
        exact absurd hoa (Nat.not_lt.mpr hle)
      · have hg2 : gaplessB (b :: l2) = true := by
          rw [he] at hg
          exact chainB_append_right _ l1 (b :: l2) hg
        have hle := gapless_head_le l2 b hg2
          (fun u hu => hvs u (by rw [he]; exact List.mem_append_right l1 hu))
          a hm
        exact absurd hob (Nat.not_lt.mpr hle)
    rw [if_neg hg]

/-- Witness for C6's success conjunct at a concrete unsorted continuous
two-interval input. -/
theorem claim_C6_witness :
    (([⟨1, 4, 9, rate010⟩, ⟨0, 2, 4, rate005⟩] : List ConsumptionTax) ≠ [] ∧
      gaplessB (sort_by_begin [⟨1, 4, 9, rate010⟩, ⟨0, 2, 4, rate005⟩]) =
        true) ∧
    ConsumptionTaxManager.init [⟨1, 4, 9, rate010⟩, ⟨0, 2, 4, rate005⟩] =
      .ok (setEndAt
        (setBeginAt (sort_by_begin [⟨1, 4, 9, rate010⟩, ⟨0, 2, 4, rate005⟩])
          0 MIN_CONSUMPTION_TAX_BEGIN)
        ((sort_by_begin
          [⟨1, 4, 9, rate010⟩, ⟨0, 2, 4, rate005⟩]).length - 1)
        MAX_CONSUMPTION_TAX_END) :=
  ⟨⟨by decide, by decide⟩,
    (claim_C6_constructor [⟨1, 4, 9, rate010⟩, ⟨0, 2, 4, rate005⟩]).2.2.2.1
      (by decide) (by decide)⟩

/-! ### Claim C7: modify_consumption_tax_rate -/

lemma validate_rate_iff (r : ℚ) :
    validate_consumption_tax_rate r = true ↔
      (MIN_CONSUMPTION_TAX_RATE ≤ r ∧ r < MAX_CONSUMPTION_TAX_RATE) := by
  simp [validate_consumption_tax_rate]

lemma find?_decomp (p : ConsumptionTax → Bool) :
    ∀ (l : List ConsumptionTax) (t : ConsumptionTax), l.find? p = some t →
      ∃ l1 l2, l = l1 ++ t :: l2 ∧ p t = true ∧ ∀ u ∈ l1, p u = false := by
  intro l
  induction l with
  | nil =>
    intro t h
    simp at h
  | cons x xs ih =>
    intro t h
    cases hp : p x with
    | true =>
      rw [List.find?_cons_of_pos _ hp, Option.some_inj] at h
      subst h
      exact ⟨[], xs, rfl, hp, by simp⟩
    | false =>
      rw [List.find?_cons_of_neg _ (by simp [hp])] at h
      obtain ⟨l1, l2, he, hpt, hpre⟩ := ih t h
      refine ⟨x :: l1, l2, by rw [he]; rfl, hpt, ?_⟩
      intro u hu
      rcases List.mem_cons.mp hu with rfl | hu2
      · exact hp
      · exact hpre u hu2

lemma set_rate_of_first_decomp (id : Nat) (r : ℚ) :
    ∀ (l1 : List ConsumptionTax) (t : ConsumptionTax)
      (l2 : List ConsumptionTax), (∀ u ∈ l1, u.id ≠ id) → t.id = id →
      set_rate_of_first id r (l1 ++ t :: l2) =
        l1 ++ ⟨t.id, t.begin, t.«end», r⟩ :: l2 := by
  intro l1
  induction l1 with
  | nil =>
    intro t l2 _ ht
    rw [List.nil_append, set_rate_of_first, if_pos ht, List.nil_append]
  | cons x xs ih =>
    intro t l2 hpre ht
    rw [List.cons_append, set_rate_of_first,
      if_neg (hpre x (by simp)), ih t l2 (fun u hu => hpre u (by simp [hu])) ht,
      List.cons_append]

lemma set_rate_of_first_spans (id : Nat) (r : ℚ) :
    ∀ (l : List ConsumptionTax),
      (set_rate_of_first id r l).map (fun t => (t.begin, t.«end»)) =
        l.map (fun t => (t.begin, t.«end»)) := by
  intro l
  induction l with
  | nil => rfl
  | cons x xs ih =>
    rw [set_rate_of_first]
    by_cases hx : x.id = id
    · rw [if_pos hx]
      simp
    · rw [if_neg hx]
      simp [ih]

/-- Claim C7: `modify_consumption_tax_rate` fails with `InvalidRate`
exactly when the new rate lies outside `[0.0, 1.0)`, fails with `NotFound`
exactly when the rate is valid but no interval's id matches, leaves the
list unchanged in both failure cases, and on success changes exactly the
first matching interval's rate (its `begin` and `end`, and every other
interval, untouched) before running the merge pass. -/
theorem claim_C7_modify_rate (taxes : ConsumptionTaxManager) (id : Nat)
    (r : ℚ) :
    ((modify_consumption_tax_rate taxes id r).2 = some invalidRateMsg ↔
      ¬ (MIN_CONSUMPTION_TAX_RATE ≤ r ∧ r < MAX_CONSUMPTION_TAX_RATE)) ∧
    ((modify_consumption_tax_rate taxes id r).2 = some notFoundMsg ↔
      ((MIN_CONSUMPTION_TAX_RATE ≤ r ∧ r < MAX_CONSUMPTION_TAX_RATE) ∧
        (taxes.find? fun t => t.id == id) = none)) ∧
    ((modify_consumption_tax_rate taxes id r).2 ≠ none →
      (modify_consumption_tax_rate taxes id r).1 = taxes) ∧
    ((set_rate_of_first id r taxes).map (fun t => (t.begin, t.«end»)) =
      taxes.map (fun t => (t.begin, t.«end»))) ∧
    (∀ t, (taxes.find? fun u => u.id == id) = some t →
      ∃ l1 l2, taxes = l1 ++ t :: l2 ∧ (∀ u ∈ l1, u.id ≠ id) ∧
        set_rate_of_first id r taxes =
          l1 ++ ⟨t.id, t.begin, t.«end», r⟩ :: l2 ∧
        ((MIN_CONSUMPTION_TAX_RATE ≤ r ∧ r < MAX_CONSUMPTION_TAX_RATE) →
          modify_consumption_tax_rate taxes id r =
            (marge_consumption_tax_period (set_rate_of_first id r taxes),
              none))) := by
  by_cases hv : validate_consumption_tax_rate r = true
  · have hvp := (validate_rate_iff r).mp hv
    cases hf : taxes.find? fun t => t.id == id with
    | none =>
      have hm : modify_consumption_tax_rate taxes id r =
          (taxes, some notFoundMsg) := by
        rw [modify_consumption_tax_rate, mkConsumptionTax_dummy, if_pos hv, hf]
      refine ⟨?_, ?_, ?_, set_rate_of_first_spans id r taxes, ?_⟩
      · rw [hm]
        constructor
        · intro h
          have hmsg : notFoundMsg = invalidRateMsg := by simpa using h
          exact absurd hmsg (by decide)
        · intro h
          exact absurd hvp h
      · rw [hm]
        simp [hvp]
      · intro _
        rw [hm]
      · intro t ht
        exact absurd ht (by simp)
    | some t0 =>
      have hm : modify_consumption_tax_rate taxes id r =
          (marge_consumption_tax_period (set_rate_of_first id r taxes),
            none) := by
        rw [modify_consumption_tax_rate, mkConsumptionTax_dummy, if_pos hv, hf]
      refine ⟨?_, ?_, ?_, set_rate_of_first_spans id r taxes, ?_⟩
      · rw [hm]
        simp [hvp]
      · rw [hm]
        simp
      · intro h
        rw [hm] at h
        exact absurd rfl h
      · intro t ht
        have ht2 : (taxes.find? fun u => u.id == id) = some t := by
          rw [hf]
          exact ht
        obtain ⟨l1, l2, he, hpt, hpre⟩ :=
          find?_decomp (fun u => u.id == id) taxes t ht2
        have htid : t.id = id := by simpa using hpt
        have hpre2 : ∀ u ∈ l1, u.id ≠ id := by
          intro u hu
          have := hpre u hu
          simpa using this
        refine ⟨l1, l2, he, hpre2, ?_, fun _ => hm⟩
        rw [he]
        exact set_rate_of_first_decomp id r l1 t l2 hpre2 htid
  · have hm : modify_consumption_tax_rate taxes id r =
        (taxes, some invalidRateMsg) := by
      rw [modify_consumption_tax_rate, mkConsumptionTax_dummy, if_neg hv]
    have hvp : ¬ (MIN_CONSUMPTION_TAX_RATE ≤ r ∧ r < MAX_CONSUMPTION_TAX_RATE) :=
      fun h => hv ((validate_rate_iff r).mpr h)
    refine ⟨?_, ?_, ?_, set_rate_of_first_spans id r taxes, ?_⟩
    · rw [hm]
      simp [hvp]
    · rw [hm]
      constructor
      · intro h
        have hmsg : invalidRateMsg = notFoundMsg := by simpa using h
        exact absurd hmsg (by decide)
      · intro h
        exact absurd h.1 hvp
    · intro _
      rw [hm]
    · intro t ht
      obtain ⟨l1, l2, he, hpt, hpre⟩ :=
        find?_decomp (fun u => u.id == id) taxes t ht
      have htid : t.id = id := by simpa using hpt
      have hpre2 : ∀ u ∈ l1, u.id ≠ id := by
        intro u hu
        have := hpre u hu
        simpa using this
      refine ⟨l1, l2, he, hpre2, ?_, fun h => absurd h hvp⟩
      rw [he]
      exact set_rate_of_first_decomp id r l1 t l2 hpre2 htid

/-- A rate of value 2, outside the valid range. -/
def rateTwo : ℚ := Rat.mk' 2 1 (by decide) (by decide)

/-- Witness for C7: at an out-of-range rate the call fails with
`InvalidRate` and leaves the list unchanged. -/
theorem claim_C7_witness :
    ¬ (MIN_CONSUMPTION_TAX_RATE ≤ rateTwo ∧
        rateTwo < MAX_CONSUMPTION_TAX_RATE) ∧
    (modify_consumption_tax_rate baseTaxes 0 rateTwo).2 =
      some invalidRateMsg :=
  ⟨by decide, (claim_C7_modify_rate baseTaxes 0 rateTwo).1.mpr (by decide)⟩

/-! ### Claim C8: remove_consumption_tax -/

lemma findIdx?_front_start (p : ConsumptionTax → Bool) :
    ∀ (l1 : List ConsumptionTax) (t : ConsumptionTax)
      (l2 : List ConsumptionTax) (i : Nat),
      (∀ u ∈ l1, p u = false) → p t = true →
      List.findIdx? p (l1 ++ t :: l2) i = some (l1.length + i) := by
  intro l1
  induction l1 with
  | nil =>
    intro t l2 i _ hp
    rw [List.nil_append, List.findIdx?_cons, if_pos hp]
    simp
  | cons x xs ih =>
    intro t l2 i hpre hp
    rw [List.cons_append, List.findIdx?_cons,
      if_neg (by simp [hpre x (by simp)]),
      ih t l2 (i + 1) (fun u hu => hpre u (by simp [hu])) hp]
    congr 1
    simp only [List.length_cons]
    omega

lemma findIdx?_front (p : ConsumptionTax → Bool)
    (l1 : List ConsumptionTax) (t : ConsumptionTax)
    (l2 : List ConsumptionTax) (hpre : ∀ u ∈ l1, p u = false)
    (hp : p t = true) :
    (l1 ++ t :: l2).findIdx? p = some l1.length := by
  simpa using findIdx?_front_start p l1 t l2 0 hpre hp

lemma modifyAt_append_zero (A B : List ConsumptionTax)
    (f : ConsumptionTax → ConsumptionTax) :
    modifyAt (A ++ B) A.length f = A ++ modifyAt B 0 f := by
  have h := modifyAt_append A B 0 f
  simpa using h

/-- Claim C8: `remove_consumption_tax` fails with `CannotEmpty` when at
most one interval remains (list unchanged); fails with `NotFound` when the
list has two or more intervals but no id matches (list unchanged);
otherwise, with `idx` the first matching position: an interior removal
first sets `list[idx+1].begin := list[idx-1].end`, removing the head sets
the new first element's `begin` to `MIN_CONSUMPTION_TAX_BEGIN`, removing
the last sets the new last element's `end` to `MAX_CONSUMPTION_TAX_END`;
the element is deleted and the merge pass runs. -/
theorem claim_C8_remove (taxes : ConsumptionTaxManager) (id : Nat) :
    (taxes.length ≤ 1 →
      remove_consumption_tax taxes id = (taxes, some cannotEmptyMsg)) ∧
    (1 < taxes.length →
      (taxes.findIdx? fun t => t.id == id) = none →
      remove_consumption_tax taxes id = (taxes, some notFoundMsg)) ∧
    (∀ t s rest, taxes = t :: s :: rest → t.id = id →
      remove_consumption_tax taxes id =
        (marge_consumption_tax_period
          (⟨s.id, MIN_CONSUMPTION_TAX_BEGIN, s.«end», s.rate⟩ :: rest),
          none)) ∧
    (∀ l1 p t, taxes = l1 ++ [p, t] →
      (∀ u ∈ l1, u.id ≠ id) → p.id ≠ id → t.id = id →
      remove_consumption_tax taxes id =
        (marge_consumption_tax_period
          (l1 ++ [⟨p.id, p.begin, MAX_CONSUMPTION_TAX_END, p.rate⟩]),
          none)) ∧
    (∀ l1 p t s l2, taxes = l1 ++ p :: t :: s :: l2 →
      (∀ u ∈ l1, u.id ≠ id) → p.id ≠ id → t.id = id →
      remove_consumption_tax taxes id =
        (marge_consumption_tax_period
          (l1 ++ p :: ⟨s.id, p.«end», s.«end», s.rate⟩ :: l2), none)) := by
  refine ⟨?_, ?_, ?_, ?_, ?_⟩
  · intro h
    simp only [remove_consumption_tax]
    rw [if_pos h]
  · intro hn hf
    simp only [remove_consumption_tax]
    rw [if_neg (by omega), hf]
  · intro t s rest heq ht
    subst heq
    have hfind : ((t :: s :: rest).findIdx? fun u => u.id == id) = some 0 := by
      simp [List.findIdx?_cons, ht]
    simp only [remove_consumption_tax]
    rw [if_neg (show ¬ (t :: s :: rest).length ≤ 1 by simp), hfind]
    simp only []
    simp [setBeginAt, modifyAt, eraseAt]
  · intro l1 p t heq hpre hp ht
    subst heq
    have hfind : ((l1 ++ [p, t]).findIdx? fun u => u.id == id) =
        some (l1.length + 1) := by
      have h := findIdx?_front (fun u => u.id == id) (l1 ++ [p]) t []
        (by
          intro u hu
          rcases List.mem_append.mp hu with hu1 | hu2
          · simp [hpre u hu1]
          · simp only [List.mem_singleton] at hu2
            subst hu2
            simp [hp])
        (by simp [ht])
      simpa using h
    simp only [remove_consumption_tax]
    rw [if_neg (show ¬ (l1 ++ [p, t]).length ≤ 1 by
        simp only [List.length_append, List.length_cons, List.length_nil]
        omega),
      hfind]
    simp only []
    rw [if_neg (show ¬ (0 < l1.length + 1 ∧
        1 < (l1 ++ [p, t]).length - (l1.length + 1)) by
        simp only [List.length_append, List.length_cons, List.length_nil]
        omega),
      if_neg (show ¬ l1.length + 1 = 0 by omega),
      if_pos (show l1.length + 1 = (l1 ++ [p, t]).length - 1 by
        simp only [List.length_append, List.length_cons, List.length_nil]
        omega)]
    have hend : setEndAt (l1 ++ [p, t]) (l1.length + 1 - 1)
        MAX_CONSUMPTION_TAX_END =
        l1 ++ [⟨p.id, p.begin, MAX_CONSUMPTION_TAX_END, p.rate⟩, t] := by
      have h := modifyAt_append_zero l1 [p, t]
        (fun u => ⟨u.id, u.begin, MAX_CONSUMPTION_TAX_END, u.rate⟩)
      simp only [Nat.add_sub_cancel]
      simpa [setEndAt, modifyAt] using h
    rw [hend]
    have herase : eraseAt
        (l1 ++ [⟨p.id, p.begin, MAX_CONSUMPTION_TAX_END, p.rate⟩, t])
        (l1.length + 1) =
        l1 ++ [⟨p.id, p.begin, MAX_CONSUMPTION_TAX_END, p.rate⟩] := by
      have h := eraseAt_append
        (l1 ++ [⟨p.id, p.begin, MAX_CONSUMPTION_TAX_END, p.rate⟩]) [] t
      simpa using h
    rw [herase]
  · intro l1 p t s l2 heq hpre hp ht
    subst heq
    have hfind : ((l1 ++ p :: t :: s :: l2).findIdx? fun u => u.id == id) =
        some (l1.length + 1) := by
      have h := findIdx?_front (fun u => u.id == id) (l1 ++ [p]) t (s :: l2)
        (by
          intro u hu
          rcases List.mem_append.mp hu with hu1 | hu2
          · simp [hpre u hu1]
          · simp only [List.mem_singleton] at hu2
            subst hu2
            simp [hp])
        (by simp [ht])
      simpa using h
    simp only [remove_consumption_tax]
    rw [if_neg (show ¬ (l1 ++ p :: t :: s :: l2).length ≤ 1 by
        simp only [List.length_append, List.length_cons]
        omega),
      hfind]
    simp only []
    rw [if_pos (show 0 < l1.length + 1 ∧
        1 < (l1 ++ p :: t :: s :: l2).length - (l1.length + 1) by
        refine ⟨by omega, ?_⟩
        simp only [List.length_append, List.length_cons]
        omega)]
    have hgetD : (l1 ++ p :: t :: s :: l2).getD (l1.length + 1 - 1)
        ⟨0, 0, 0, 0⟩ = p := by
      simp only [Nat.add_sub_cancel]
      exact getD_append l1 (t :: s :: l2) p ⟨0, 0, 0, 0⟩
    rw [hgetD]
    have hset : setBeginAt (l1 ++ p :: t :: s :: l2) (l1.length + 1 + 1)
        p.«end» =
        l1 ++ p :: t :: ⟨s.id, p.«end», s.«end», s.rate⟩ :: l2 := by
      have h := modifyAt_append_zero (l1 ++ [p, t]) (s :: l2)
        (fun u => ⟨u.id, p.«end», u.«end», u.rate⟩)
      simpa [setBeginAt, modifyAt] using h
    rw [hset,
      if_neg (show ¬ l1.length + 1 = 0 by omega),
      if_neg (show ¬ l1.length + 1 =
          (l1 ++ p :: t :: s :: l2).length - 1 by
        simp only [List.length_append, List.length_cons]
        omega)]
    have herase : eraseAt
        (l1 ++ p :: t :: ⟨s.id, p.«end», s.«end», s.rate⟩ :: l2)
        (l1.length + 1) =
        l1 ++ p :: ⟨s.id, p.«end», s.«end», s.rate⟩ :: l2 := by
      have h := eraseAt_append (l1 ++ [p])
        (⟨s.id, p.«end», s.«end», s.rate⟩ :: l2) t
      simpa using h
    rw [herase]

/-- Witness for C8: removing from a single-element list fails with
`CannotEmpty` and leaves the list unchanged. -/
theorem claim_C8_witness :
    ([⟨0, 0, MAX_CONSUMPTION_TAX_END, rate005⟩] :
        List ConsumptionTax).length ≤ 1 ∧
    remove_consumption_tax [⟨0, 0, MAX_CONSUMPTION_TAX_END, rate005⟩] 0 =
      ([⟨0, 0, MAX_CONSUMPTION_TAX_END, rate005⟩], some cannotEmptyMsg) :=
  ⟨by decide,
    (claim_C8_remove [⟨0, 0, MAX_CONSUMPTION_TAX_END, rate005⟩] 0).1
      (by decide)⟩

/-! ### Claim C3: consumption_tax_rate under the class invariant -/

lemma find?_some_of_mem (p : ConsumptionTax → Bool) :
    ∀ (l : List ConsumptionTax) (x : ConsumptionTax), x ∈ l → p x = true →
      ∃ u, l.find? p = some u := by
  intro l
  induction l with
  | nil =>
    intro x hx
    simp at hx
  | cons y ys ih =>
    intro x hx hpx
    cases hp : p y with
    | true => exact ⟨y, List.find?_cons_of_pos ys hp⟩
    | false =>
      rcases List.mem_cons.mp hx with rfl | hx2
      · rw [hp] at hpx
        exact absurd hpx (by simp)
      · obtain ⟨u, hu⟩ := ih x hx2 hpx
        exact ⟨u, by rw [List.find?_cons_of_neg ys (by simp [hp]), hu]⟩

lemma cover_exists : ∀ (l : List ConsumptionTax) (t : ConsumptionTax)
    (dt : Nat), gaplessB (t :: l) = true → t.begin ≤ dt →
    (∀ z, (t :: l).getLast? = some z → dt < z.«end») →
    ∃ u ∈ t :: l, u.begin ≤ dt ∧ dt < u.«end» := by
  intro l
  induction l with
  | nil =>
    intro t dt _ hb hl
    exact ⟨t, by simp, hb, hl t rfl⟩
  | cons b bs ih =>
    intro t dt hg hb hl
    by_cases hd : dt < t.«end»
    · exact ⟨t, by simp, hb, hd⟩
    · have htb : t.«end» = b.begin := by
        rw [gaplessB, chainB_cons_cons, Bool.and_eq_true,
          decide_eq_true_eq] at hg
        exact hg.1
      have hbb : b.begin ≤ dt := by
        rw [← htb]
        exact Nat.le_of_not_lt hd
      have hg2 : gaplessB (b :: bs) = true := chainB_tail _ t _ hg
      obtain ⟨u, hu, hc⟩ := ih b dt hg2 hbb
        (fun z hz => hl z (by rw [List.getLast?_cons_cons]; exact hz))
      exact ⟨u, List.mem_cons_of_mem t hu, hc⟩

lemma cover_unique (l : List ConsumptionTax) (hg : gaplessB l = true)
    (hv : ∀ u ∈ l, u.begin < u.«end») (dt : Nat) :
    ∀ u ∈ l, ∀ w ∈ l, u.begin ≤ dt → dt < u.«end» → w.begin ≤ dt →
      dt < w.«end» → u = w := by
  intro u hu w hw _hub hue hwb hwe
  by_contra hne
  obtain ⟨l1, l2, hc⟩ := mem_mem_split l u w hu hw hne
  rcases hc with ⟨he, hm⟩ | ⟨he, hm⟩
  · have hg2 : gaplessB (u :: l2) = true := by
      rw [he] at hg
      exact chainB_append_right _ l1 _ hg
    have hle := gapless_head_le l2 u hg2
      (fun z hz => hv z (by rw [he]; exact List.mem_append_right l1 hz)) w hm
    exact absurd (Nat.lt_of_le_of_lt (Nat.le_trans hle hwb) hue)
      (Nat.lt_irrefl _)
  · have hg2 : gaplessB (w :: l2) = true := by
      rw [he] at hg
      exact chainB_append_right _ l1 _ hg
    have hle := gapless_head_le l2 w hg2
      (fun z hz => hv z (by rw [he]; exact List.mem_append_right l1 hz)) u hm
    exact absurd (Nat.lt_of_le_of_lt (Nat.le_trans hle _hub) hwe)
      (Nat.lt_irrefl _)

lemma manager_valid_members (taxes : List ConsumptionTax)
    (hinv : ManagerInvariant taxes) :
    ∀ u ∈ taxes, u.begin < u.«end» ∧ u.«end» ≤ MAX_CONSUMPTION_TAX_END := by
  intro u hu
  have h := hinv.2.1 u hu
  exact ⟨h.2.2.2.2.1, h.2.2.2.1⟩

lemma rate_lookup_found (taxes : List ConsumptionTax)
    (hinv : ManagerInvariant taxes) (dt : Nat)
    (hle : dt ≤ MAX_CONSUMPTION_TAX_END) (hne : dt ≠ MAX_CONSUMPTION_TAX_END) :
    ∃ t, t ∈ taxes ∧ (t.begin ≤ dt ∧ dt < t.«end») ∧
      (∀ u ∈ taxes, u.begin ≤ dt → dt < u.«end» → u = t) ∧
      consumption_tax_rate taxes dt = .ok t.rate := by
  obtain ⟨hne0, hval, _hsort, hgap, hhead, hlast, _hcanon⟩ := hinv
  obtain ⟨t0, rest, heq⟩ : ∃ t0 rest, taxes = t0 :: rest := by
    cases taxes with
    | nil => exact absurd rfl hne0
    | cons t0 rest => exact ⟨t0, rest, rfl⟩
  subst heq
  have hb0 : t0.begin = MIN_CONSUMPTION_TAX_BEGIN := by
    simpa using hhead
  have hlt : dt < MAX_CONSUMPTION_TAX_END := Nat.lt_of_le_of_ne hle hne
  obtain ⟨u, hu, hub, hue⟩ := cover_exists rest t0 dt hgap
    (by rw [hb0]; exact Nat.zero_le dt)
    (by
      intro z hz
      have : z.«end» = MAX_CONSUMPTION_TAX_END := by
        rw [hz] at hlast
        simpa using hlast
      rw [this]
      exact hlt)
  have hv : ∀ w ∈ t0 :: rest, w.begin < w.«end» :=
    fun w hw => (manager_valid_members _ ⟨by simp, hval, _hsort, hgap,
      hhead, hlast, _hcanon⟩ w hw).1
  obtain ⟨w, hfw⟩ := find?_some_of_mem
    (fun t => decide (t.begin ≤ dt ∧ dt < t.«end»)) (t0 :: rest) u hu
    (by simp [hub, hue])
  have hwmem : w ∈ t0 :: rest := List.mem_of_find?_eq_some hfw
  have hwcov : w.begin ≤ dt ∧ dt < w.«end» := by
    have := List.find?_some hfw
    simpa using this
  refine ⟨w, hwmem, hwcov, ?_, ?_⟩
  · intro x hx hxb hxe
    exact cover_unique (t0 :: rest) hgap hv dt x hx w hwmem hxb hxe
      hwcov.1 hwcov.2
  · rw [consumption_tax_rate, if_neg hne, hfw]

/-- Claim C3: on a manager satisfying the class invariant,
`consumption_tax_rate` fails with `Unmanaged` at
`MAX_CONSUMPTION_TAX_END`; at every other instant of the axis it returns
the rate of the unique interval with `begin <= dt < end`; the lookup at
`MIN_CONSUMPTION_TAX_BEGIN` returns the first interval's rate, the lookup
at any interval's `begin` returns that interval's rate, the lookup at an
interval's `end` (when a next interval exists) returns the next interval's
rate, and the defensive `InternalInvariantViolation` branch is never
reached on the axis. -/
theorem claim_C3_rate_lookup (taxes : ConsumptionTaxManager)
    (hinv : ManagerInvariant taxes) :
    consumption_tax_rate taxes MAX_CONSUMPTION_TAX_END =
      .error unmanagedMsg ∧
    (∀ dt, dt ≤ MAX_CONSUMPTION_TAX_END → dt ≠ MAX_CONSUMPTION_TAX_END →
      ∃ t, t ∈ taxes ∧ (t.begin ≤ dt ∧ dt < t.«end») ∧
        (∀ u ∈ taxes, u.begin ≤ dt → dt < u.«end» → u = t) ∧
        consumption_tax_rate taxes dt = .ok t.rate) ∧
    (∀ hne : taxes ≠ [],
      consumption_tax_rate taxes MIN_CONSUMPTION_TAX_BEGIN =
        .ok ((taxes.head hne).rate)) ∧
    (∀ t ∈ taxes, consumption_tax_rate taxes t.begin = .ok t.rate) ∧
    (∀ l1 a b l2, taxes = l1 ++ a :: b :: l2 →
      consumption_tax_rate taxes a.«end» = .ok b.rate) ∧
    (∀ dt, dt ≤ MAX_CONSUMPTION_TAX_END →
      consumption_tax_rate taxes dt ≠ .error internalInvariantMsg) := by
  have hmem_begin : ∀ t ∈ taxes, consumption_tax_rate taxes t.begin =
      .ok t.rate := by
    intro t ht
    have hvt := hinv.2.1 t ht
    have htb : t.begin < MAX_CONSUMPTION_TAX_END :=
      Nat.lt_of_lt_of_le hvt.2.2.2.2.1 hvt.2.2.2.1
    obtain ⟨w, hwmem, hwcov, huniq, hres⟩ := rate_lookup_found taxes hinv
      t.begin (Nat.le_of_lt htb) (Nat.ne_of_lt htb)
    have : t = w := huniq t ht (Nat.le_refl _) hvt.2.2.2.2.1
    rw [hres, ← this]
  refine ⟨?_, fun dt hle hne => rate_lookup_found taxes hinv dt hle hne,
    ?_, hmem_begin, ?_, ?_⟩
  · rw [consumption_tax_rate, if_pos rfl]
  · intro hne
    obtain ⟨t0, rest, heq⟩ : ∃ t0 rest, taxes = t0 :: rest := by
      cases taxes with
      | nil => exact absurd rfl hne
      | cons t0 rest => exact ⟨t0, rest, rfl⟩
    have hb0 : t0.begin = MIN_CONSUMPTION_TAX_BEGIN := by
      have := hinv.2.2.2.2.1
      rw [heq] at this
      simpa using this
    have := hmem_begin t0 (by rw [heq]; simp)
    rw [hb0] at this
    rw [this]
    congr 1
    subst heq
    rfl
  · intro l1 a b l2 heq
    have hab : a.«end» = b.begin := by
      have hg := hinv.2.2.2.1
      rw [heq] at hg
      have hg2 : gaplessB (a :: b :: l2) = true :=
        chainB_append_right _ l1 _ hg
      rw [gaplessB, chainB_cons_cons, Bool.and_eq_true,
        decide_eq_true_eq] at hg2
      exact hg2.1
    have hbmem : b ∈ taxes := by
      rw [heq]
      exact List.mem_append_right l1 (by simp)
    rw [hab]
    exact hmem_begin b hbmem
  · intro dt hle
    by_cases hne : dt = MAX_CONSUMPTION_TAX_END
    · subst hne
      rw [consumption_tax_rate, if_pos rfl]
      intro h
      have : unmanagedMsg = internalInvariantMsg := by
        injection h
      exact absurd this (by decide)
    · obtain ⟨t, -, -, -, hres⟩ := rate_lookup_found taxes hinv dt hle hne
      rw [hres]
      simp

/-- Witness for C3 at the concrete scenario manager. -/
theorem claim_C3_witness :
    ManagerInvariant baseTaxes ∧
    consumption_tax_rate baseTaxes MAX_CONSUMPTION_TAX_END =
      .error unmanagedMsg :=
  ⟨by decide, (claim_C3_rate_lookup baseTaxes (by decide)).1⟩

/-! ### Claim C9: re-inserting an existing interval changes nothing
observable -/

lemma contains_eq_true_iff (u w : ConsumptionTax) :
    u.contains w = true ↔ (u.begin ≤ w.begin ∧ w.«end» ≤ u.«end») := by
  rw [ConsumptionTax.contains]
  by_cases h1 : w.begin < u.begin
  · rw [if_pos h1]
    constructor
    · intro h
      exact absurd h (by simp)
    · intro h
      exact absurd h1 (Nat.not_lt.mpr h.1)
  · rw [if_neg h1]
    by_cases h2 : u.«end» < w.«end»
    · rw [if_pos h2]
      constructor
      · intro h
        exact absurd h (by simp)
      · intro h
        exact absurd h2 (Nat.not_lt.mpr h.2)
    · rw [if_neg h2]
      simp [Nat.le_of_not_lt h1, Nat.le_of_not_lt h2]

lemma findIdx?_start (p : ConsumptionTax → Bool) :
    ∀ (l : List ConsumptionTax) (j : Nat),
      List.findIdx? p l j = (List.findIdx? p l 0).map (· + j) := by
  intro l
  induction l with
  | nil => intro j; rfl
  | cons x xs ih =>
    intro j
    rw [List.findIdx?_cons, List.findIdx?_cons]
    cases hp : p x with
    | true => simp
    | false =>
      simp only [hp, Bool.false_eq_true, if_false]
      rw [ih (j + 1), ih 1]
      cases List.findIdx? p xs 0 with
      | none => rfl
      | some k =>
        simp only [Option.map_some, Option.map_map]
        congr 1
        simp only [Function.comp_def]
        funext z
        omega

lemma findIdx?_all_eq (p : ConsumptionTax → Bool) :
    ∀ (l : List ConsumptionTax) (t : ConsumptionTax),
      (∀ u ∈ l, p u = true → u = t) → t ∈ l → p t = true →
      ∃ A B, l = A ++ t :: B ∧ (∀ u ∈ A, p u = false) ∧
        List.findIdx? p l = some A.length := by
  intro l
  induction l with
  | nil =>
    intro t _ ht
    simp at ht
  | cons x xs ih =>
    intro t hall ht hpt
    cases hp : p x with
    | true =>
      have hxt : x = t := hall x (by simp) hp
      subst hxt
      refine ⟨[], xs, rfl, by simp, ?_⟩
      rw [List.findIdx?_cons, if_pos hp]
      rfl
    | false =>
      have htxs : t ∈ xs := by
        rcases List.mem_cons.mp ht with rfl | h
        · rw [hp] at hpt
          exact absurd hpt (by simp)
        · exact h
      obtain ⟨A, B, he, hA, hfi⟩ := ih t
        (fun u hu hpu => hall u (List.mem_cons_of_mem x hu) hpu) htxs hpt
      refine ⟨x :: A, B, by rw [he]; rfl, ?_, ?_⟩
      · intro u hu
        rcases List.mem_cons.mp hu with rfl | hu2
        · exact hp
        · exact hA u hu2
      · rw [List.findIdx?_cons, if_neg (by simp [hp]), findIdx?_start p xs 1,
          hfi]
        rfl

lemma map_rate_distinct : ∀ (l1 l2 : List ConsumptionTax),
    l1.map (fun t => t.rate) = l2.map (fun t => t.rate) →
    distinctAdjacentRatesB l1 = distinctAdjacentRatesB l2 := by
  intro l1
  induction l1 with
  | nil =>
    intro l2 h
    cases l2 with
    | nil => rfl
    | cons y ys => simp at h
  | cons x xs ih =>
    intro l2 h
    cases l2 with
    | nil => simp at h
    | cons y ys =>
      simp only [List.map_cons, List.cons.injEq] at h
      obtain ⟨hxy, hxs⟩ := h
      cases xs with
      | nil =>
        cases ys with
        | nil => rfl
        | cons y2 ys2 => simp at hxs
      | cons x2 xs2 =>
        cases ys with
        | nil => simp at hxs
        | cons y2 ys2 =>
          have h2 : x2.rate = y2.rate := by
            simp only [List.map_cons, List.cons.injEq] at hxs
            exact hxs.1
          show (decide (x.rate ≠ x2.rate) &&
              distinctAdjacentRatesB (x2 :: xs2)) =
            (decide (y.rate ≠ y2.rate) && distinctAdjacentRatesB (y2 :: ys2))
          rw [hxy, h2, ih (y2 :: ys2) hxs]

lemma contains_unique_under_invariant (taxes : List ConsumptionTax)
    (hinv : ManagerInvariant taxes) (t : ConsumptionTax) (ht : t ∈ taxes) :
    ∀ u ∈ taxes, u.begin ≤ t.begin → t.«end» ≤ u.«end» → u = t := by
  intro u hu hub hue
  have hv : ∀ z ∈ taxes, z.begin < z.«end» :=
    fun z hz => (manager_valid_members taxes hinv z hz).1
  have hvt : t.begin < t.«end» := hv t ht
  by_contra hne
  obtain ⟨l1, l2, hc⟩ := mem_mem_split taxes u t hu ht hne
  rcases hc with ⟨he, hm⟩ | ⟨he, hm⟩
  · have hg2 : gaplessB (u :: l2) = true := by
      have hg := hinv.2.2.2.1
      rw [he] at hg
      exact chainB_append_right _ l1 _ hg
    have hle := gapless_head_le l2 u hg2
      (fun z hz => hv z (by rw [he]; exact List.mem_append_right l1 hz)) t hm
    -- t.end ≤ u.end ≤ t.begin < t.end
    exact absurd (Nat.lt_of_le_of_lt (Nat.le_trans hue hle) hvt)
      (Nat.lt_irrefl _)
  · have hg2 : gaplessB (t :: l2) = true := by
      have hg := hinv.2.2.2.1
      rw [he] at hg
      exact chainB_append_right _ l1 _ hg
    have hle := gapless_head_le l2 t hg2
      (fun z hz => hv z (by rw [he]; exact List.mem_append_right l1 hz)) u hm
    -- t.end ≤ u.begin ≤ t.begin < t.end
    exact absurd (Nat.lt_of_le_of_lt (Nat.le_trans hle hub) hvt)
      (Nat.lt_irrefl _)

/-- Claim C9: on a manager satisfying the class invariant, adding a freshly
constructed tax whose `begin`, `end` and `rate` exactly match an existing
interval leaves the list observably unchanged: the same boundaries and
rates in the same order (only ids may differ). -/
theorem claim_C9_idempotent_reinsertion (taxes : ConsumptionTaxManager)
    (hinv : ManagerInvariant taxes) (t : ConsumptionTax) (ht : t ∈ taxes)
    (fid fid1 fid2 : Nat) :
    (add_consumption_tax taxes ⟨fid, t.begin, t.«end», t.rate⟩ fid1
        fid2).map (fun u => (u.begin, u.«end», u.rate)) =
      taxes.map (fun u => (u.begin, u.«end», u.rate)) := by
  set addition : ConsumptionTax := ⟨fid, t.begin, t.«end», t.rate⟩ with haddition
  have hall : ∀ u ∈ taxes, (u.contains addition) = true → u = t := by
    intro u hu hc
    rw [contains_eq_true_iff] at hc
    exact contains_unique_under_invariant taxes hinv t ht u hu hc.1 hc.2
  have hpt : t.contains addition = true := by
    rw [contains_eq_true_iff]
    exact ⟨Nat.le_refl _, Nat.le_refl _⟩
  obtain ⟨A, B, he, _hA, hfi⟩ :=
    findIdx?_all_eq (fun u => u.contains addition) taxes t hall ht hpt
  have hretr : retrieve_contained_consumption_tax_index taxes addition =
      (A.length : Int) := by
    rw [retrieve_contained_consumption_tax_index, hfi]
  have hgen : generate_consumption_taxes_for_included_addition taxes
      A.length addition fid1 fid2 = A ++ addition :: B := by
    rw [he, generate_included_spec]
    simp
  have hdist : distinctAdjacentRatesB (A ++ addition :: B) = true := by
    have hmr : (A ++ addition :: B).map (fun u => u.rate) =
        taxes.map (fun u => u.rate) := by
      rw [he]
      simp [haddition]
    rw [map_rate_distinct _ _ hmr]
    exact hinv.2.2.2.2.2.2
  rw [add_consumption_tax]
  rw [hretr]
  rw [if_pos (show (0 : Int) ≤ (A.length : Int) from Int.natCast_nonneg _)]
  rw [show ((A.length : Int)).toNat = A.length from Int.toNat_natCast _]
  rw [hgen, marge_eq_self _ hdist, he]
  simp [haddition]

/-- Witness for C9: re-inserting the middle interval of the scenario
manager with a fresh id. -/
theorem claim_C9_witness :
    ManagerInvariant baseTaxes ∧
    (⟨1, 4, 6, rate010⟩ : ConsumptionTax) ∈ baseTaxes ∧
    (add_consumption_tax baseTaxes
        ⟨77, (⟨1, 4, 6, rate010⟩ : ConsumptionTax).begin,
          (⟨1, 4, 6, rate010⟩ : ConsumptionTax).«end»,
          (⟨1, 4, 6, rate010⟩ : ConsumptionTax).rate⟩ 100 101).map
        (fun u => (u.begin, u.«end», u.rate)) =
      baseTaxes.map (fun u => (u.begin, u.«end», u.rate)) :=
  ⟨by decide, by decide,
    claim_C9_idempotent_reinsertion baseTaxes (by decide) ⟨1, 4, 6, rate010⟩
      (by decide) 77 100 101⟩

end Drugstore
